import Mathlib

/-!
Verification development for the Tycoon routing-and-settlement engine.

The definitions below are a shallow embedding of the JavaScript sources
(pathfinding.js, turnResolver.js, gameState.js, settings.js).  JavaScript
numbers are modelled as exact rationals; the Infinity sentinel used by the
pathfinder and the price computations is modelled by the top element of
WithTop.  Arrays are modelled as lists, in-place mutation as functional
update, and the game objects as structures with the source field names.
-/

namespace Tycoon

set_option maxRecDepth 100000

/-- A JavaScript number that may hold the Infinity sentinel (so: a rational
or the top element). -/
abbrev Money := WithTop ℚ

/-- Subtraction on sentinel-carrying numbers as it behaves in the sources:
both operands finite gives exact rational subtraction, and an infinite
minuend gives Infinity.  The case of a finite minuend and infinite
subtrahend never occurs in the embedded code (settlement subtracts a route
cost that was selected, hence finite); it is mapped to the top element. -/
def jsSub : Money → Money → Money
  | ⊤, _ => ⊤
  | some a, some b => some (a - b)
  | some _, ⊤ => ⊤

/-- Multiplication of a finite barrel count with a possibly-infinite price.
Callers in the turn resolver guard the barrel count to be positive, so the
JavaScript indeterminate 0 * Infinity never occurs. -/
def mulQ (b : ℚ) : Money → Money
  | some q => some (b * q)
  | ⊤ => ⊤

/-- Read entry (i, j) of a matrix stored as a list of rows, with a default
for out-of-range access. -/
def mget (dflt : α) (m : List (List α)) (i j : Nat) : α :=
  (m.getD i []).getD j dflt

/-- Write entry (i, j) of a matrix stored as a list of rows (no-op when the
index is out of range, which never happens in the embedded loops). -/
def mset (m : List (List α)) (i j : Nat) (v : α) : List (List α) :=
  m.set i ((m.getD i []).set j v)

/-- An n-by-n matrix filled with one value. -/
def mrepl (n : Nat) (v : α) : List (List α) :=
  List.replicate n (List.replicate n v)

/-- The matrix is rectangular: n rows, each of length n. -/
def Rect (n : Nat) (m : List (List α)) : Prop :=
  m.length = n ∧ ∀ r ∈ m, r.length = n

/-- Truck transport mode of an edge. -/
structure TruckMode where
  available : Bool
  cost : ℚ
deriving DecidableEq

/-- Rail transport mode of an edge. -/
structure RailMode where
  available : Bool
  cost : ℚ
deriving DecidableEq

/-- Pipeline transport mode of an edge (the owned mode). -/
structure PipelineMode where
  owner : Option Nat
  capacity : ℚ
  fee : ℚ
  utilization : ℚ
deriving DecidableEq

/-- The three transport modes of an edge. -/
structure Transportation where
  truck : TruckMode
  rail : RailMode
  pipeline : PipelineMode
deriving DecidableEq

/-- An undirected edge of the transport graph. -/
structure Edge where
  id : Nat
  node_a : Nat
  node_b : Nat
  transportation : Transportation
  flow_volume : ℚ := 0
deriving DecidableEq

/-- Pathfinder.getEdgeCost: minimum cost over the transport modes that are
currently available on the edge. -/
def getEdgeCost (edge : Edge) : ℚ :=
  let minCost := edge.transportation.truck.cost
  let minCost :=
    if edge.transportation.rail.available then
      min minCost edge.transportation.rail.cost
    else minCost
  if (edge.transportation.pipeline.owner).isSome then
    min minCost edge.transportation.pipeline.fee
  else minCost

/-- A refinery built on a node. -/
structure Refinery where
  owner : Nat
  capacity : ℚ
  fee : ℚ
  upgrade_level : Nat := 0
  utilization : ℚ := 0
  barrels_processed : ℚ := 0
deriving DecidableEq

/-- A storage facility built on a node. -/
structure Storage where
  owner : Nat
  capacity : ℚ
  crude_stored : ℚ := 0
  refined_stored : ℚ := 0
deriving DecidableEq

/-- The buildings record of a node. -/
structure Buildings where
  refinery : Option Refinery := none
  storage : Option Storage := none
deriving DecidableEq

/-- The result of Pathfinder.findCheapestSupply: either the nearest import
terminal, or a production-to-refinery-to-demand player route. -/
inductive SupplyRoute where
  | imp (cost : Money) (terminal : Option Nat)
  | player_supply (production : Nat) (refinery : Nat) (demand : Nat) (cost : Money)
deriving DecidableEq

/-- Cost carried by a supply route. -/
def SupplyRoute.cost : SupplyRoute → Money
  | .imp c _ => c
  | .player_supply _ _ _ c => c

/-- A node of the graph.  Role-specific JavaScript fields that are absent
(undefined) on a node are modelled by their falsy defaults. -/
structure Node where
  id : Nat
  production_capacity : ℚ := 0
  well_build_cost : ℚ := 0
  operating_cost : ℚ := 0
  has_well : Bool := false
  well_owner : Option Nat := none
  is_import_terminal : Bool := false
  demand_base : ℚ := 0
  demand_growth_rate : ℚ := 0
  current_demand : ℚ := 0
  local_price : Money := some 0
  supply_source : Option SupplyRoute := none
  buildings : Buildings := {}
deriving DecidableEq

/-- Default node, modelling an out-of-range (undefined) array access, which
the embedded code never performs on reachable states. -/
def dummyNode : Node := { id := 0 }

/-- Default refinery record for the same purpose. -/
def dummyRefinery : Refinery := { owner := 0, capacity := 0, fee := 0 }

/-- Default edge record for the same purpose. -/
def dummyEdge : Edge :=
  { id := 0, node_a := 0, node_b := 0,
    transportation :=
      { truck := { available := true, cost := 0 },
        rail := { available := false, cost := 0 },
        pipeline := { owner := none, capacity := 0, fee := 0, utilization := 0 } } }

/-- The Pathfinder state: the all-pairs distance matrix and the next-hop
matrix built by computeAllPaths. -/
structure Pathfinder where
  dist : List (List Money)
  next : List (List (Option Nat))
deriving DecidableEq

/-- One relaxation step of the Floyd-Warshall triple loop, on the distance
matrix alone. -/
def relaxD (d : List (List Money)) (k i j : Nat) : List (List Money) :=
  if mget ⊤ d i k + mget ⊤ d k j < mget ⊤ d i j then
    mset d i j (mget ⊤ d i k + mget ⊤ d k j)
  else d

/-- One relaxation step of the Floyd-Warshall triple loop, updating the
distance and next-hop matrices together, as the source does. -/
def fwRelax (pf : Pathfinder) (k i j : Nat) : Pathfinder :=
  if mget ⊤ pf.dist i k + mget ⊤ pf.dist k j < mget ⊤ pf.dist i j then
    { dist := mset pf.dist i j (mget ⊤ pf.dist i k + mget ⊤ pf.dist k j),
      next := mset pf.next i j (mget none pf.next i k) }
  else pf

/-- Initialization of one edge: keep the cheaper of the current entry and
this edge's cost, in both directions. -/
def fwInitEdge (pf : Pathfinder) (e : Edge) : Pathfinder :=
  if ((getEdgeCost e : ℚ) : Money) < mget ⊤ pf.dist e.node_a e.node_b then
    { dist := mset (mset pf.dist e.node_a e.node_b ((getEdgeCost e : ℚ) : Money)) e.node_b
        e.node_a ((getEdgeCost e : ℚ) : Money),
      next := mset (mset pf.next e.node_a e.node_b (some e.node_b)) e.node_b e.node_a
        (some e.node_a) }
  else pf

/-- Pathfinder.computeAllPaths: all-pairs shortest costs by Floyd-Warshall
over the minimum-cost transport mode of every edge. -/
def computeAllPaths (nodes : List Node) (edges : List Edge) : Pathfinder :=
  let n := nodes.length
  let pf : Pathfinder := { dist := mrepl n ⊤, next := mrepl n none }
  let pf := (List.range n).foldl
    (fun pf i => { dist := mset pf.dist i i ((0 : ℚ) : Money), next := mset pf.next i i (some i) }) pf
  let pf := edges.foldl fwInitEdge pf
  (List.range n).foldl
    (fun pf k => (List.range n).foldl
      (fun pf i => (List.range n).foldl
        (fun pf j => fwRelax pf k i j) pf) pf) pf

/-- Distance-matrix projection of one edge-initialization step. -/
def initEdgeD (d : List (List Money)) (e : Edge) : List (List Money) :=
  if ((getEdgeCost e : ℚ) : Money) < mget ⊤ d e.node_a e.node_b then
    mset (mset d e.node_a e.node_b ((getEdgeCost e : ℚ) : Money)) e.node_b e.node_a
      ((getEdgeCost e : ℚ) : Money)
  else d

/-- Distance-matrix projection of the diagonal initialization. -/
def initDiagD (n : Nat) : List (List Money) :=
  (List.range n).foldl (fun d i => mset d i i ((0 : ℚ) : Money)) (mrepl n ⊤)

/-- One full k-round of the Floyd-Warshall triple loop on the distance
matrix. -/
def fwDistRound (n : Nat) (d : List (List Money)) (k : Nat) : List (List Money) :=
  (List.range n).foldl
    (fun d i => (List.range n).foldl (fun d j => relaxD d k i j) d) d

/-- The distance matrix computed by computeAllPaths, written as a pipeline
on the distance matrix alone. -/
def fwDist (n : Nat) (edges : List Edge) : List (List Money) :=
  (List.range n).foldl (fwDistRound n) (edges.foldl initEdgeD (initDiagD n))

/-- The metric-style invariants of a distance matrix: rectangular, zero
diagonal, non-negative, symmetric, and relaxed through every index of S. -/
def GoodMat (n : Nat) (S : List Nat) (d : List (List Money)) : Prop :=
  Rect n d ∧ (∀ i, i < n → mget ⊤ d i i = 0) ∧ (∀ i j, 0 ≤ mget ⊤ d i j) ∧
  (∀ i j, mget ⊤ d i j = mget ⊤ d j i) ∧ (∀ k ∈ S, k < n) ∧
  (∀ k ∈ S, ∀ i j, mget ⊤ d i j ≤ mget ⊤ d i k + mget ⊤ d k j)

/-- Pathfinder.getCost: cost of the shortest path between two nodes. -/
def getCost (pf : Pathfinder) (a b : Nat) : Money :=
  mget ⊤ pf.dist a b

/-- The while loop of Pathfinder.getPath, with fuel.  Exhausted fuel models
a next-hop table whose chain does not reach the target, on which the
JavaScript loop would not terminate; computeAllPaths never builds such a
table on the inputs the game uses. -/
def getPathGo (pf : Pathfinder) (tgt : Nat) : Nat → Nat → List Nat
  | 0, _ => []
  | fuel + 1, current =>
    if current = tgt then []
    else
      match mget none pf.next current tgt with
      | none => []
      | some nxt => nxt :: getPathGo pf tgt fuel nxt

/-- Pathfinder.getPath: reconstruct the shortest path, or none when no path
exists. -/
def getPath (pf : Pathfinder) (a b : Nat) : Option (List Nat) :=
  match mget none pf.next a b with
  | none => none
  | some _ => some (a :: getPathGo pf b (pf.next.length + 1) a)

/-- Transport kind chosen for one edge of a detailed route. -/
inductive TransportKind where
  | truck
  | rail
  | pipeline
deriving DecidableEq

/-- Pathfinder.getEdgeTransportation: the transport mode actually used on an
edge, with its cost. -/
def getEdgeTransportation (edge : Edge) : TransportKind × ℚ :=
  let m : TransportKind × ℚ := (TransportKind.truck, edge.transportation.truck.cost)
  let m :=
    if edge.transportation.rail.available = true ∧ edge.transportation.rail.cost < m.2 then
      (TransportKind.rail, edge.transportation.rail.cost)
    else m
  if (edge.transportation.pipeline.owner).isSome = true ∧ edge.transportation.pipeline.fee < m.2 then
    (TransportKind.pipeline, edge.transportation.pipeline.fee)
  else m

/-- Pathfinder.findEdge: the edge between two nodes, if any. -/
def findEdge (edges : List Edge) (a b : Nat) : Option Edge :=
  edges.find? fun e => (e.node_a == a && e.node_b == b) || (e.node_a == b && e.node_b == a)

/-- The route record built by Pathfinder.getDetailedRoute (the cost
breakdown object is inlined into three fields). -/
structure DetailedRoute where
  nodes : List Nat
  edges : List Nat
  totalCost : ℚ
  truckCost : ℚ
  railCost : ℚ
  pipelineCost : ℚ
deriving DecidableEq

/-- Pathfinder.getDetailedRoute: path plus traversed edges and per-mode cost
breakdown. -/
def getDetailedRoute (pf : Pathfinder) (edges : List Edge) (a b : Nat) : Option DetailedRoute :=
  match getPath pf a b with
  | none => none
  | some nodePath =>
    let pairs := nodePath.zip nodePath.tail
    some <| pairs.foldl
      (fun rt ab =>
        match findEdge edges ab.1 ab.2 with
        | none => rt
        | some e =>
          let tc := getEdgeTransportation e
          let rt := { rt with edges := rt.edges ++ [e.id], totalCost := rt.totalCost + tc.2 }
          match tc.1 with
          | .truck => { rt with truckCost := rt.truckCost + tc.2 }
          | .rail => { rt with railCost := rt.railCost + tc.2 }
          | .pipeline => { rt with pipelineCost := rt.pipelineCost + tc.2 })
      { nodes := nodePath, edges := [], totalCost := 0, truckCost := 0, railCost := 0, pipelineCost := 0 }

/-- Pathfinder.findNearestTerminal: nearest import terminal by shortest
cost, scanning nodes in index order with a strict improvement test. -/
def findNearestTerminal (pf : Pathfinder) (nodeId : Nat) (nodes : List Node) : Option Nat :=
  (List.range nodes.length).foldl
    (fun acc i =>
      if (nodes.getD i dummyNode).is_import_terminal then
        let cost := getCost pf nodeId i
        if cost < acc.1 then (cost, some i) else acc
      else acc)
    ((⊤ : Money), (none : Option Nat)) |>.2

/-- Pathfinder.calculateLocalPrice: import price at a demand node, Infinity
when no terminal is reachable through the node list. -/
def calculateLocalPrice (pf : Pathfinder) (demandNodeId : Nat) (globalPrice terminalFee : ℚ)
    (nodes : List Node) : Money :=
  match findNearestTerminal pf demandNodeId nodes with
  | none => ⊤
  | some terminalId =>
    ((globalPrice : ℚ) : Money) + ((terminalFee : ℚ) : Money) + getCost pf terminalId demandNodeId

/-- Settings fields used by the embedded code (settings.js). -/
structure Settings where
  TERMINAL_FEE : ℚ
  REFINERY_OPERATING_COST : ℚ
  PRICE_VOLATILITY : ℚ
  PIPELINE_COST_PER_EDGE : ℚ
  PIPELINE_BASE_CAPACITY : ℚ
  PIPELINE_DEFAULT_FEE : ℚ
  REFINERY_BUILD_COST : ℚ
  REFINERY_BASE_CAPACITY : ℚ
  REFINERY_UPGRADE_COST_MULTIPLIER : ℚ
  STORAGE_COST_PER_BARREL : ℚ
  WELL_BUILD_COST : ℚ
deriving DecidableEq

/-- The landed cost of one production-to-refinery-to-demand combination as
findCheapestSupply computes it. -/
def pairCost (pf : Pathfinder) (settings : Settings) (nodes : List Node)
    (demandNodeId prodId refId : Nat) : Money :=
  (((nodes.getD prodId dummyNode).operating_cost : ℚ) : Money) +
    getCost pf prodId refId +
    ((settings.REFINERY_OPERATING_COST : ℚ) : Money) +
    ((((nodes.getD refId dummyNode).buildings.refinery.getD dummyRefinery).fee : ℚ) : Money) +
    getCost pf refId demandNodeId

/-- The refinery scan step of findCheapestSupply for a fixed production
node: skip nodes without a refinery, and keep the strictly cheapest total
cost seen so far. -/
def scanRef (pf : Pathfinder) (settings : Settings) (nodes : List Node)
    (demandNodeId prodId : Nat) (acc : Money × Option (Nat × Nat)) (refId : Nat) :
    Money × Option (Nat × Nat) :=
  if ((nodes.getD refId dummyNode).buildings.refinery).isSome then
    if pairCost pf settings nodes demandNodeId prodId refId < acc.1 then
      (pairCost pf settings nodes demandNodeId prodId refId, some (prodId, refId))
    else acc
  else acc

/-- The production scan step of findCheapestSupply: skip nodes without a
well, and otherwise scan every refinery index. -/
def scanProd (pf : Pathfinder) (settings : Settings) (nodes : List Node)
    (demandNodeId : Nat) (acc : Money × Option (Nat × Nat)) (prodId : Nat) :
    Money × Option (Nat × Nat) :=
  if (nodes.getD prodId dummyNode).has_well then
    (List.range nodes.length).foldl (scanRef pf settings nodes demandNodeId prodId) acc
  else acc

/-- The accumulator scan of findCheapestSupply over every
production-refinery pair, in index order, keeping the strictly cheapest. -/
def cheapestScan (pf : Pathfinder) (settings : Settings) (nodes : List Node)
    (demandNodeId : Nat) : Money × Option (Nat × Nat) :=
  (List.range nodes.length).foldl (scanProd pf settings nodes demandNodeId)
    ((⊤ : Money), (none : Option (Nat × Nat)))

/-- Pathfinder.findCheapestSupply: the cheaper of the nearest import
terminal and the cheapest production-to-refinery-to-demand route. -/
def findCheapestSupply (pf : Pathfinder) (demandNodeId : Nat) (globalPrice terminalFee : ℚ)
    (settings : Settings) (nodes : List Node) : SupplyRoute :=
  if calculateLocalPrice pf demandNodeId globalPrice terminalFee nodes <
      (cheapestScan pf settings nodes demandNodeId).1 then
    .imp (calculateLocalPrice pf demandNodeId globalPrice terminalFee nodes)
      (findNearestTerminal pf demandNodeId nodes)
  else
    match (cheapestScan pf settings nodes demandNodeId).2 with
    | some pr =>
      .player_supply pr.1 pr.2 demandNodeId (cheapestScan pf settings nodes demandNodeId).1
    | none =>
      .imp (calculateLocalPrice pf demandNodeId globalPrice terminalFee nodes)
        (findNearestTerminal pf demandNodeId nodes)

/-- Owned asset id lists of a player. -/
structure Assets where
  wells : List Nat := []
  refineries : List Nat := []
  pipelines : List Nat := []
  storage : List Nat := []
deriving DecidableEq

/-- A player (economic agent). -/
structure Player where
  id : Nat
  cash : Money := some 0
  assets : Assets := {}
  revenue_this_turn : Money := some 0
  costs_this_turn : Money := some 0
  profit_this_turn : Money := some 0
  profit_history : List Money := []
  cumulative_profit : Money := some 0
  barrels_sold : ℚ := 0
  market_share : ℚ := 0
deriving DecidableEq

/-- Default player, modelling an out-of-range (undefined) array access,
which the embedded code never performs on reachable states. -/
def dummyPlayer : Player := { id := 0 }

/-- The centralized game state (gameState.js). -/
structure GameState where
  settings : Settings
  turn : Nat := 0
  global_oil_price : ℚ
  global_crude_price : ℚ
  global_refined_price : ℚ
  players : List Player
  nodes : List Node
  edges : List Edge
  pathfinder : Pathfinder
deriving DecidableEq

/-- Update one player of the list in place. -/
def updPlayer (ps : List Player) (i : Nat) (f : Player → Player) : List Player :=
  ps.set i (f (ps.getD i dummyPlayer))

/-- The error taxonomy of the mutation commands. -/
inductive MutError where
  | notProductionNode
  | wellExists
  | insufficientFunds
  | pipelineExists
  | refineryExists
  | noRefinery
  | notYourRefinery
  | notYourPipeline
deriving DecidableEq

/-- The success-or-error result record of a mutation command. -/
inductive MutResult where
  | ok
  | err (e : MutError)
deriving DecidableEq

/-- GameState.buildWell. -/
def buildWell (st : GameState) (playerId nodeId : Nat) : GameState × MutResult :=
  let player := st.players.getD playerId dummyPlayer
  let node := st.nodes.getD nodeId dummyNode
  if node.production_capacity = 0 then (st, .err .notProductionNode)
  else if node.has_well then (st, .err .wellExists)
  else if player.cash < ((node.well_build_cost : ℚ) : Money) then (st, .err .insufficientFunds)
  else
    let player :=
      { player with
        cash := jsSub player.cash ((node.well_build_cost : ℚ) : Money),
        assets := { player.assets with wells := player.assets.wells ++ [nodeId] } }
    let node := { node with has_well := true, well_owner := some playerId }
    ({ st with players := st.players.set playerId player, nodes := st.nodes.set nodeId node }, .ok)

/-- GameState.buildPipeline. -/
def buildPipeline (st : GameState) (playerId edgeId : Nat) : GameState × MutResult :=
  let player := st.players.getD playerId dummyPlayer
  let edge := st.edges.getD edgeId dummyEdge
  if (edge.transportation.pipeline.owner).isSome then (st, .err .pipelineExists)
  else
    let cost := st.settings.PIPELINE_COST_PER_EDGE
    if player.cash < ((cost : ℚ) : Money) then (st, .err .insufficientFunds)
    else
      let player :=
        { player with
          cash := jsSub player.cash ((cost : ℚ) : Money),
          assets := { player.assets with pipelines := player.assets.pipelines ++ [edgeId] } }
      let edge :=
        { edge with
          transportation :=
            { edge.transportation with
              pipeline :=
                { owner := some playerId,
                  capacity := st.settings.PIPELINE_BASE_CAPACITY,
                  fee := st.settings.PIPELINE_DEFAULT_FEE,
                  utilization := 0 } } }
      let edges := st.edges.set edgeId edge
      ({ st with
          players := st.players.set playerId player,
          edges := edges,
          pathfinder := computeAllPaths st.nodes edges }, .ok)

/-- GameState.buildRefinery. -/
def buildRefinery (st : GameState) (playerId nodeId : Nat) : GameState × MutResult :=
  let player := st.players.getD playerId dummyPlayer
  let node := st.nodes.getD nodeId dummyNode
  if (node.buildings.refinery).isSome then (st, .err .refineryExists)
  else
    let cost := st.settings.REFINERY_BUILD_COST
    if player.cash < ((cost : ℚ) : Money) then (st, .err .insufficientFunds)
    else
      let player :=
        { player with
          cash := jsSub player.cash ((cost : ℚ) : Money),
          assets := { player.assets with refineries := player.assets.refineries ++ [nodeId] } }
      let node :=
        { node with
          buildings :=
            { node.buildings with
              refinery := some
                { owner := playerId,
                  capacity := st.settings.REFINERY_BASE_CAPACITY,
                  fee := 5,
                  upgrade_level := 0,
                  utilization := 0,
                  barrels_processed := 0 } } }
      let nodes := st.nodes.set nodeId node
      ({ st with
          players := st.players.set playerId player,
          nodes := nodes,
          pathfinder := computeAllPaths nodes st.edges }, .ok)

/-- GameState.upgradeRefinery. -/
def upgradeRefinery (st : GameState) (playerId nodeId : Nat) : GameState × MutResult :=
  let player := st.players.getD playerId dummyPlayer
  let node := st.nodes.getD nodeId dummyNode
  match node.buildings.refinery with
  | none => (st, .err .noRefinery)
  | some ref =>
    if ref.owner ≠ playerId then (st, .err .notYourRefinery)
    else
      let cost := st.settings.REFINERY_BUILD_COST * st.settings.REFINERY_UPGRADE_COST_MULTIPLIER
      if player.cash < ((cost : ℚ) : Money) then (st, .err .insufficientFunds)
      else
        let player := { player with cash := jsSub player.cash ((cost : ℚ) : Money) }
        let node :=
          { node with
            buildings :=
              { node.buildings with
                refinery := some
                  { ref with
                    capacity := ref.capacity * 2,
                    upgrade_level := ref.upgrade_level + 1 } } }
        ({ st with
            players := st.players.set playerId player,
            nodes := st.nodes.set nodeId node }, .ok)

/-- GameState.setPipelineFee. -/
def setPipelineFee (st : GameState) (playerId edgeId : Nat) (fee : ℚ) : GameState × MutResult :=
  let edge := st.edges.getD edgeId dummyEdge
  if edge.transportation.pipeline.owner ≠ some playerId then (st, .err .notYourPipeline)
  else
    let edge :=
      { edge with
        transportation :=
          { edge.transportation with
            pipeline := { edge.transportation.pipeline with fee := fee } } }
    let edges := st.edges.set edgeId edge
    ({ st with edges := edges, pathfinder := computeAllPaths st.nodes edges }, .ok)

/-- GameState.setRefineryFee. -/
def setRefineryFee (st : GameState) (playerId nodeId : Nat) (fee : ℚ) : GameState × MutResult :=
  let node := st.nodes.getD nodeId dummyNode
  match node.buildings.refinery with
  | none => (st, .err .notYourRefinery)
  | some ref =>
    if ref.owner ≠ playerId then (st, .err .notYourRefinery)
    else
      let node :=
        { node with
          buildings := { node.buildings with refinery := some { ref with fee := fee } } }
      let nodes := st.nodes.set nodeId node
      ({ st with nodes := nodes, pathfinder := computeAllPaths nodes st.edges }, .ok)

/-- RandomUtils.randomWalk with the uniform sample u drawn from the random
source made explicit. -/
def randomWalk (current vol u : ℚ) : ℚ :=
  current * (1 + (u - 1/2) * 2 * vol)

/-- TurnResolver.updateGlobalPrice, with the two uniform samples explicit. -/
def updateGlobalPrice (st : GameState) (u₁ u₂ : ℚ) : GameState :=
  let c := max 30 (min 150 (randomWalk st.global_crude_price st.settings.PRICE_VOLATILITY u₁))
  let r := max 50 (min 200 (randomWalk st.global_refined_price st.settings.PRICE_VOLATILITY u₂))
  let r := if r < c then c + 10 else r
  { st with global_crude_price := c, global_refined_price := r, global_oil_price := r }

/-- TurnResolver.trackRouteUsage: increment flow and pipeline utilization on
every traversed edge and pay the pipeline owner its fee. -/
def trackRouteUsage (st : GameState) (rt : DetailedRoute) (barrels : ℚ) : GameState :=
  rt.edges.foldl
    (fun st eid =>
      let edge := st.edges.getD eid dummyEdge
      let edge₁ := { edge with flow_volume := edge.flow_volume + barrels }
      match edge.transportation.pipeline.owner with
      | none => { st with edges := st.edges.set eid edge₁ }
      | some ow =>
        let edge₂ :=
          { edge₁ with
            transportation :=
              { edge₁.transportation with
                pipeline :=
                  { edge₁.transportation.pipeline with
                    utilization := edge₁.transportation.pipeline.utilization + barrels } } }
        let fee := barrels * edge.transportation.pipeline.fee
        { st with
          edges := st.edges.set eid edge₂,
          players := updPlayer st.players ow
            (fun p => { p with revenue_this_turn := p.revenue_this_turn + ((fee : ℚ) : Money) }) })
    st

/-- TurnResolver.trackInfrastructureUsage for a player supply route. -/
def trackInfrastructureUsage (st : GameState) (production refinery demand : Nat)
    (barrels : ℚ) : GameState :=
  let st₁ :=
    match getDetailedRoute st.pathfinder st.edges production refinery with
    | none => st
    | some rt => trackRouteUsage st rt barrels
  match getDetailedRoute st₁.pathfinder st₁.edges refinery demand with
  | none => st₁
  | some rt => trackRouteUsage st₁ rt barrels

/-- The body of the demand loop of TurnResolver.routeAndSatisfyDemand, for
the node at index idx. -/
def serveDemandNode (st : GameState) (idx : Nat) : GameState :=
  let dNode := st.nodes.getD idx dummyNode
  if dNode.current_demand = 0 then st
  else
    let supplyRoute :=
      findCheapestSupply st.pathfinder dNode.id st.global_oil_price
        st.settings.TERMINAL_FEE st.settings st.nodes
    let st := { st with nodes := st.nodes.set idx { dNode with supply_source := some supplyRoute } }
    match supplyRoute with
    | .imp _ _ => st
    | .player_supply production refinery demand _ =>
      let prodNode := st.nodes.getD production dummyNode
      let refNode := st.nodes.getD refinery dummyNode
      let ref := refNode.buildings.refinery.getD dummyRefinery
      let barrels := min (min dNode.current_demand prodNode.production_capacity) ref.capacity
      if barrels ≤ 0 then st
      else
        let salePrice := dNode.local_price
        let crudePrice := ((prodNode.operating_cost : ℚ) : Money) + getCost st.pathfinder production refinery
        let refinedPrice := salePrice
        let refineryCost :=
          ((st.settings.REFINERY_OPERATING_COST : ℚ) : Money) + ((ref.fee : ℚ) : Money) +
            getCost st.pathfinder refinery demand
        let wIdx := prodNode.well_owner.getD 0
        let st :=
          { st with
            players := updPlayer st.players wIdx
              (fun p =>
                { p with
                  revenue_this_turn := p.revenue_this_turn + mulQ barrels crudePrice,
                  barrels_sold := p.barrels_sold + barrels }) }
        let st :=
          { st with
            players := updPlayer st.players ref.owner
              (fun p =>
                { p with
                  revenue_this_turn := p.revenue_this_turn + mulQ barrels (jsSub refinedPrice crudePrice),
                  costs_this_turn := p.costs_this_turn + mulQ barrels refineryCost,
                  barrels_sold := p.barrels_sold + barrels }) }
        let st := trackInfrastructureUsage st production refinery demand barrels
        let refNode₂ := st.nodes.getD refinery dummyNode
        let ref₂ := refNode₂.buildings.refinery.getD dummyRefinery
        let bp := ref₂.barrels_processed + barrels
        { st with
          nodes := st.nodes.set refinery
            { refNode₂ with
              buildings :=
                { refNode₂.buildings with
                  refinery := some
                    { ref₂ with barrels_processed := bp, utilization := bp / ref₂.capacity } } } }

/-- TurnResolver.routeAndSatisfyDemand.  The production argument of the
source is never read by the body (routing re-derives supply from the node
list), so it is omitted. -/
def routeAndSatisfyDemand (st : GameState) : GameState :=
  (List.range st.nodes.length).foldl serveDemandNode st

/-- The per-player settlement step of TurnResolver.calculatePlayerProfits. -/
def settlePlayer (p : Player) : Player :=
  let profit := jsSub p.revenue_this_turn p.costs_this_turn
  { p with
    profit_this_turn := profit,
    cash := p.cash + profit,
    cumulative_profit := p.cumulative_profit + profit,
    profit_history := p.profit_history ++ [profit] }

/-- TurnResolver.calculatePlayerProfits. -/
def calculatePlayerProfits (st : GameState) : GameState :=
  { st with players := st.players.map settlePlayer }

/-- A multi-turn run of the profit settlement: for each turn, the per-turn
revenue and cost totals accumulated by that turn's earlier phases are
given, and the settlement step is applied. -/
def runSettlements (p : Player) (turns : List (Money × Money)) : Player :=
  turns.foldl
    (fun q rc => settlePlayer { q with revenue_this_turn := rc.1, costs_this_turn := rc.2 }) p

/-- The reduce computing total barrels sold in
TurnResolver.calculateMarketShare. -/
def totalBarrelsSold (players : List Player) : ℚ :=
  players.foldl (fun s p => s + p.barrels_sold) 0

/-- TurnResolver.calculateMarketShare. -/
def calculateMarketShare (players : List Player) : List Player :=
  let totalBarrels := totalBarrelsSold players
  if 0 < totalBarrels then
    players.map (fun p => { p with market_share := p.barrels_sold / totalBarrels * 100 })
  else players

/-- The comparison step of the winner loop of TurnResolver.getWinner: a
player replaces the current winner only when its cumulative profit is
strictly greater. -/
def winnerStep (winner p : Player) : Player :=
  if winner.cumulative_profit < p.cumulative_profit then p else winner

/-- TurnResolver.getWinner. -/
def getWinner (players : List Player) : Player :=
  players.foldl winnerStep (players.getD 0 dummyPlayer)

/-! ### Concrete example states used by witnesses and counterexamples -/

/-- Settings with the values of settings.js. -/
def exSettings : Settings :=
  { TERMINAL_FEE := 5, REFINERY_OPERATING_COST := 10, PRICE_VOLATILITY := 2/100,
    PIPELINE_COST_PER_EDGE := 1000000, PIPELINE_BASE_CAPACITY := 20000,
    PIPELINE_DEFAULT_FEE := 1/2, REFINERY_BUILD_COST := 10000000,
    REFINERY_BASE_CAPACITY := 10000, REFINERY_UPGRADE_COST_MULTIPLIER := 3/5,
    STORAGE_COST_PER_BARREL := 1000, WELL_BUILD_COST := 5000000 }

/-- A plain truck-only transportation record (cost 3, as in mapGenerator.js). -/
def exTransport : Transportation :=
  { truck := { available := true, cost := 3 },
    rail := { available := false, cost := 1 },
    pipeline := { owner := none, capacity := 0, fee := 0, utilization := 0 } }

/-- Two nodes: a producing well that is also a consumption node, and a
refinery node (capacity 100) that is also a consumption node.  No import
terminal exists, so both demand nodes must use the player route. -/
def exNodesTwo : List Node :=
  [ { id := 0, production_capacity := 1000, operating_cost := 10, has_well := true,
      well_owner := some 0, current_demand := 100, local_price := some 1000 },
    { id := 1, current_demand := 100, local_price := some 1000,
      buildings := { refinery := some { owner := 0, capacity := 100, fee := 5 } } } ]

/-- The single edge joining the two nodes of exNodesTwo. -/
def exEdgesTwo : List Edge :=
  [ { id := 0, node_a := 0, node_b := 1, transportation := exTransport } ]

/-- The game state over exNodesTwo, with the pathfinder freshly rebuilt. -/
def exStTwo : GameState :=
  { settings := exSettings, global_oil_price := 100, global_crude_price := 70,
    global_refined_price := 100,
    players := [{ id := 0 }, { id := 1 }],
    nodes := exNodesTwo, edges := exEdgesTwo,
    pathfinder := computeAllPaths exNodesTwo exEdgesTwo }

/-- One node that is at once an import terminal, a well and a refinery, with
costs arranged so that the player route cost equals the import price
(a tie at 105). -/
def exNodesTie : List Node :=
  [ { id := 0, is_import_terminal := true, has_well := true, production_capacity := 100,
      operating_cost := 90,
      buildings := { refinery := some { owner := 0, capacity := 100, fee := 5 } } } ]

/-- Pathfinder for the one-node tie graph. -/
def exPfTie : Pathfinder := computeAllPaths exNodesTie []

/-- A player that sold nothing this turn but still carries a 100 percent
market share from an earlier turn. -/
def exPlayerStale : Player := { id := 0, barrels_sold := 0, market_share := 100 }

/-- Three players with a tie for the maximal cumulative profit between
indices 1 and 2. -/
def exPlayersTied : List Player :=
  [ { id := 0, cumulative_profit := some 5 },
    { id := 1, cumulative_profit := some 9 },
    { id := 2, cumulative_profit := some 9 } ]

/-- A state whose player 0 has enough cash to build the pipeline of edge 0. -/
def exStRich : GameState :=
  { settings := exSettings, global_oil_price := 100, global_crude_price := 70,
    global_refined_price := 100,
    players := [{ id := 0, cash := some 2000000 }],
    nodes := exNodesTwo, edges := exEdgesTwo,
    pathfinder := computeAllPaths exNodesTwo exEdgesTwo }

/-- A state with an owned pipeline on edge 0 at fee 2, for the fee-lowering
witness. -/
def exStOwned : GameState :=
  { settings := exSettings, global_oil_price := 100, global_crude_price := 70,
    global_refined_price := 100,
    players := [{ id := 0, cash := some 2000000 }],
    nodes := exNodesTwo,
    edges := [ { id := 0, node_a := 0, node_b := 1, transportation :=
      { truck := { available := true, cost := 3 }, rail := { available := false, cost := 1 },
        pipeline := { owner := some 0, capacity := 20000, fee := 2, utilization := 0 } } } ],
    pathfinder := computeAllPaths exNodesTwo
      [ { id := 0, node_a := 0, node_b := 1, transportation :=
        { truck := { available := true, cost := 3 }, rail := { available := false, cost := 1 },
          pipeline := { owner := some 0, capacity := 20000, fee := 2, utilization := 0 } } } ] }

/-- A price state in which the clamped refined walk lands below the clamped
crude walk, forcing the refined price to crude + 10. -/
def exStPrice : GameState := { exStTwo with global_crude_price := 200, global_refined_price := 50 }

/-- A player with a positive number of barrels sold this turn. -/
def exPlayerSold : Player := { id := 0, barrels_sold := 50 }

/-! ### Matrix lemmas -/

theorem rect_mrepl (n : Nat) (v : α) : Rect n (mrepl n v) := by
  refine ⟨List.length_replicate .., fun r hr => ?_⟩
  rw [List.eq_of_mem_replicate hr]
  exact List.length_replicate ..

theorem mget_mrepl (dflt v : α) (n i j : Nat) :
    mget dflt (mrepl n v) i j = if i < n ∧ j < n then v else dflt := by
  unfold mget mrepl
  rcases Nat.lt_or_ge i n with hi | hi
  · have hrow : (List.replicate n (List.replicate n v)).getD i [] = List.replicate n v := by
      rw [List.getD_eq_getElem _ _ (by simpa using hi)]
      exact List.getElem_replicate ..
    rw [hrow]
    rcases Nat.lt_or_ge j n with hj | hj
    · have hval : (List.replicate n v).getD j dflt = v := by
        rw [List.getD_eq_getElem _ _ (by simpa using hj)]
        exact List.getElem_replicate ..
      rw [hval, if_pos ⟨hi, hj⟩]
    · rw [List.getD_eq_default _ _ (by simpa using hj), if_neg (by omega)]
  · rw [List.getD_eq_default (List.replicate n (List.replicate n v)) [] (by simpa using hi),
      List.getD_nil, if_neg (by omega)]

theorem mget_oob {n : Nat} {m : List (List α)} (h : Rect n m) (dflt : α) {i j : Nat}
    (hij : n ≤ i ∨ n ≤ j) : mget dflt m i j = dflt := by
  unfold mget
  rcases Nat.lt_or_ge i n with hi | hi
  · have hmem : m.getD i [] ∈ m := by
      rw [List.getD_eq_getElem _ _ (h.1 ▸ hi)]
      exact List.getElem_mem _
    have hlen : (m.getD i []).length = n := h.2 _ hmem
    have hj : n ≤ j := by
      rcases hij with hn | hn
      · omega
      · exact hn
    rw [List.getD_eq_default _ _ (by omega)]
  · have hl : m.length = n := h.1
    rw [List.getD_eq_default m [] (by omega), List.getD_nil]

theorem rect_mset {n : Nat} {m : List (List α)} (h : Rect n m) (i j : Nat) (v : α) :
    Rect n (mset m i j v) := by
  rcases Nat.lt_or_ge i m.length with hi | hi
  · refine ⟨by simpa [mset] using h.1, fun r hr => ?_⟩
    rcases List.mem_or_eq_of_mem_set hr with hmem | heq
    · exact h.2 _ hmem
    · rw [heq, List.length_set, List.getD_eq_getElem _ _ hi]
      exact h.2 _ (List.getElem_mem _)
  · unfold mset
    rw [List.set_eq_of_length_le hi]
    exact h

theorem mget_mset {n : Nat} {m : List (List α)} (h : Rect n m) (dflt : α) {i j : Nat}
    (hi : i < n) (hj : j < n) (v : α) (a b : Nat) :
    mget dflt (mset m i j v) a b = if a = i ∧ b = j then v else mget dflt m a b := by
  have hilen : i < m.length := h.1 ▸ hi
  have hrowlen : (m.getD i []).length = n := by
    rw [List.getD_eq_getElem _ _ hilen]
    exact h.2 _ (List.getElem_mem _)
  have hsome : m.get? i = some (m.get ⟨i, hilen⟩) := by
    rw [List.get?_eq_getElem?]
    exact List.getElem?_eq_getElem hilen
  have hrow : (m.get? i).getD [] = m.get ⟨i, hilen⟩ := by rw [hsome]; rfl
  simp only [mget, mset, List.getD_eq_getD_get?]
  rw [List.get?_set]
  rcases eq_or_ne i a with hia | hia
  · subst hia
    rw [if_pos rfl, hsome]
    simp only [Option.map_eq_map, Option.map_some', Option.getD_some, hrow]
    rw [List.get?_set]
    rcases eq_or_ne j b with hjb | hjb
    · subst hjb
      have hjlen : j < (m.get ⟨i, hilen⟩).length := by
        rw [← hrow, ← List.getD_eq_getD_get?]
        omega
      rw [if_pos rfl, List.get?_eq_getElem?, List.getElem?_eq_getElem hjlen]
      simp
    · rw [if_neg hjb, if_neg (by tauto)]
  · rw [if_neg hia, if_neg (by tauto)]

theorem mget_mset_oob {n : Nat} {m : List (List α)} (h : Rect n m) (dflt : α) {i j : Nat}
    (hij : n ≤ i ∨ n ≤ j) (v : α) (a b : Nat) :
    mget dflt (mset m i j v) a b = mget dflt m a b := by
  rcases Nat.lt_or_ge i m.length with hilen | hilen
  · have hi : i < n := h.1 ▸ hilen
    have hj : n ≤ j := by
      rcases hij with hn | hn
      · omega
      · exact hn
    have hrowlen : (m.getD i []).length = n := by
      rw [List.getD_eq_getElem _ _ hilen]
      exact h.2 _ (List.getElem_mem _)
    have hrowset : (m.getD i []).set j v = m.getD i [] :=
      List.set_eq_of_length_le (by omega)
    have hsome : m.get? i = some (m.get ⟨i, hilen⟩) := by
      rw [List.get?_eq_getElem?]
      exact List.getElem?_eq_getElem hilen
    have hrow : (m.get? i).getD [] = m.get ⟨i, hilen⟩ := by rw [hsome]; rfl
    unfold mget mset
    rw [hrowset]
    simp only [List.getD_eq_getD_get?]
    rw [List.get?_set]
    rcases eq_or_ne i a with hia | hia
    · subst hia
      rw [if_pos rfl, hsome]
      simp only [Option.map_eq_map, Option.map_some', Option.getD_some, hrow]
    · rw [if_neg hia]
  · unfold mset
    rw [List.set_eq_of_length_le hilen]

/-! ### Claim C8: bounded price walk -/

/-- Claim C8: for every prior price state and every pair of values drawn
from the random source, after the per-turn price update the crude price
lies in [30, 150], the refined price is never below the crude price, and
whenever the clamped refined walk lands below the crude price the refined
price is forced to crude + 10. -/
theorem updateGlobalPrice_invariant (st : GameState) (u₁ u₂ : ℚ) :
    30 ≤ (updateGlobalPrice st u₁ u₂).global_crude_price ∧
    (updateGlobalPrice st u₁ u₂).global_crude_price ≤ 150 ∧
    (updateGlobalPrice st u₁ u₂).global_crude_price ≤
      (updateGlobalPrice st u₁ u₂).global_refined_price ∧
    (max 50 (min 200 (randomWalk st.global_refined_price st.settings.PRICE_VOLATILITY u₂)) <
        (updateGlobalPrice st u₁ u₂).global_crude_price →
      (updateGlobalPrice st u₁ u₂).global_refined_price =
        (updateGlobalPrice st u₁ u₂).global_crude_price + 10) := by
  have hcrude : (updateGlobalPrice st u₁ u₂).global_crude_price
      = max 30 (min 150 (randomWalk st.global_crude_price st.settings.PRICE_VOLATILITY u₁)) := rfl
  have hrefined : (updateGlobalPrice st u₁ u₂).global_refined_price
      = (if max 50 (min 200 (randomWalk st.global_refined_price st.settings.PRICE_VOLATILITY u₂))
            < max 30 (min 150 (randomWalk st.global_crude_price st.settings.PRICE_VOLATILITY u₁))
          then max 30 (min 150 (randomWalk st.global_crude_price st.settings.PRICE_VOLATILITY u₁)) + 10
          else max 50 (min 200 (randomWalk st.global_refined_price st.settings.PRICE_VOLATILITY u₂))) :=
    rfl
  rw [hcrude, hrefined]
  set c := max 30 (min 150 (randomWalk st.global_crude_price st.settings.PRICE_VOLATILITY u₁)) with hc
  set r := max 50 (min 200 (randomWalk st.global_refined_price st.settings.PRICE_VOLATILITY u₂)) with hr
  refine ⟨le_max_left .., max_le (by norm_num) (min_le_left ..), ?_, ?_⟩
  · split_ifs with h
    · linarith
    · exact le_of_not_lt h
  · intro h
    rw [if_pos h]

/-- Witness for C8 at a concrete state and samples, with the forcing branch
actually taken. -/
theorem updateGlobalPrice_invariant_witness :
    30 ≤ (updateGlobalPrice exStPrice (1/2) (1/2)).global_crude_price ∧
    (updateGlobalPrice exStPrice (1/2) (1/2)).global_refined_price =
      (updateGlobalPrice exStPrice (1/2) (1/2)).global_crude_price + 10 :=
  ⟨(updateGlobalPrice_invariant exStPrice (1/2) (1/2)).1,
   (updateGlobalPrice_invariant exStPrice (1/2) (1/2)).2.2.2 (by with_unfolding_all decide)⟩

/-! ### Claim C2: exact profit settlement -/

theorem settle_sum_invariant (p : Player)
    (h : p.cumulative_profit = p.profit_history.sum) :
    (settlePlayer p).cumulative_profit = (settlePlayer p).profit_history.sum := by
  unfold settlePlayer
  simp [List.sum_append, h]

/-- Claim C2: the settlement step sets each agent's per-turn profit to
exactly revenue minus cost, adds that same delta to cash and cumulative
profit, and appends it to the history log; calculatePlayerProfits applies
this step to every player; and across any multi-turn run starting from a
player whose cumulative profit equals the sum of its history, the
cumulative profit after turn T equals the sum of the per-turn profits of
turns 1..T. -/
theorem calculatePlayerProfits_exact :
    (∀ p : Player,
      (settlePlayer p).profit_this_turn = jsSub p.revenue_this_turn p.costs_this_turn ∧
      (settlePlayer p).cash = p.cash + jsSub p.revenue_this_turn p.costs_this_turn ∧
      (settlePlayer p).cumulative_profit =
        p.cumulative_profit + jsSub p.revenue_this_turn p.costs_this_turn ∧
      (settlePlayer p).profit_history =
        p.profit_history ++ [jsSub p.revenue_this_turn p.costs_this_turn]) ∧
    (∀ st : GameState, (calculatePlayerProfits st).players = st.players.map settlePlayer) ∧
    (∀ (p : Player) (turns : List (Money × Money)),
      p.cumulative_profit = p.profit_history.sum →
      (runSettlements p turns).cumulative_profit = (runSettlements p turns).profit_history.sum) := by
  refine ⟨fun p => ⟨rfl, rfl, rfl, rfl⟩, fun st => rfl, fun p turns => ?_⟩
  induction turns generalizing p with
  | nil => exact fun h => h
  | cons rc t ih =>
    intro h
    unfold runSettlements
    rw [List.foldl_cons]
    exact ih _ (settle_sum_invariant _ h)

/-- Witness for C2 on a concrete one-turn run. -/
theorem calculatePlayerProfits_exact_witness :
    (runSettlements dummyPlayer [(some 5, some 2)]).cumulative_profit =
      (runSettlements dummyPlayer [(some 5, some 2)]).profit_history.sum :=
  calculatePlayerProfits_exact.2.2 dummyPlayer [(some 5, some 2)] (by with_unfolding_all decide)

/-! ### Claim C7: market shares -/

theorem foldl_add_barrels (l : List Player) (s : ℚ) :
    l.foldl (fun a p => a + p.barrels_sold) s = s + (l.map (fun p => p.barrels_sold)).sum := by
  induction l generalizing s with
  | nil => simp
  | cons p t ih => simp [ih, add_assoc]

theorem sum_map_share (l : List Player) (T : ℚ) :
    (l.map (fun p => p.barrels_sold / T * 100)).sum =
      (l.map (fun p => p.barrels_sold)).sum / T * 100 := by
  induction l with
  | nil => simp
  | cons p t ih => simp [ih, add_div, add_mul]

/-- Claim C7, amended: after the market-share phase, shares sum to 100
whenever the total barrels sold that turn is positive; when the total is
zero the players (and so their shares) are left unchanged from their prior
values rather than being reset to zero. -/
theorem calculateMarketShare_spec (players : List Player) :
    (0 < totalBarrelsSold players →
      ((calculateMarketShare players).map (fun p => p.market_share)).sum = 100) ∧
    (totalBarrelsSold players = 0 → calculateMarketShare players = players) := by
  constructor
  · intro h
    unfold calculateMarketShare
    rw [if_pos h, List.map_map]
    have hcomp : ((fun p : Player => p.market_share) ∘
        (fun p : Player =>
          { p with market_share := p.barrels_sold / totalBarrelsSold players * 100 })) =
        fun p : Player => p.barrels_sold / totalBarrelsSold players * 100 := rfl
    rw [hcomp, sum_map_share]
    have hT : (players.map (fun p => p.barrels_sold)).sum = totalBarrelsSold players := by
      unfold totalBarrelsSold
      rw [foldl_add_barrels]
      simp
    rw [hT, div_self (ne_of_gt h), one_mul]
  · intro h
    unfold calculateMarketShare
    rw [if_neg (by rw [h]; exact lt_irrefl 0)]

/-- Claim C7 counterexample: with a single player that sold nothing this
turn but carries a stale 100 percent share, the market-share phase leaves
the share at 100, not 0, although the total barrels sold is zero. -/
theorem calculateMarketShare_stale : totalBarrelsSold [exPlayerStale] = 0 ∧
    (calculateMarketShare [exPlayerStale]).map (fun p => p.market_share) = [100] ∧
    (100 : ℚ) ≠ 0 := by
  with_unfolding_all decide

/-- Witness for C7 on concrete player lists for both branches. -/
theorem calculateMarketShare_spec_witness :
    ((calculateMarketShare [exPlayerSold]).map (fun p => p.market_share)).sum = 100 ∧
    calculateMarketShare [exPlayerStale] = [exPlayerStale] :=
  ⟨(calculateMarketShare_spec [exPlayerSold]).1 (by with_unfolding_all decide),
   (calculateMarketShare_spec [exPlayerStale]).2 (by with_unfolding_all decide)⟩

/-! ### Claim C10: winner selection -/

theorem winnerFold_spec (l : List Player) (w : Player) :
    (∀ p ∈ l, p.cumulative_profit ≤ (l.foldl winnerStep w).cumulative_profit) ∧
    w.cumulative_profit ≤ (l.foldl winnerStep w).cumulative_profit ∧
    (l.foldl winnerStep w = w ∨
      ∃ l₁ l₂, l = l₁ ++ (l.foldl winnerStep w) :: l₂ ∧
        (∀ p ∈ l₁, p.cumulative_profit < (l.foldl winnerStep w).cumulative_profit) ∧
        w.cumulative_profit < (l.foldl winnerStep w).cumulative_profit) := by
  induction l generalizing w with
  | nil => exact ⟨by simp, le_refl _, Or.inl rfl⟩
  | cons p t ih =>
    simp only [List.foldl_cons]
    obtain ⟨ihall, ihw, ihpos⟩ := ih (winnerStep w p)
    have hwle : w.cumulative_profit ≤ (winnerStep w p).cumulative_profit := by
      unfold winnerStep
      split_ifs with h
      · exact le_of_lt h
      · exact le_refl _
    have hple : p.cumulative_profit ≤ (winnerStep w p).cumulative_profit := by
      unfold winnerStep
      split_ifs with h
      · exact le_refl _
      · exact le_of_not_lt h
    refine ⟨?_, le_trans hwle ihw, ?_⟩
    · intro q hq
      rcases List.mem_cons.mp hq with hq | hq
      · rw [hq]
        exact le_trans hple ihw
      · exact ihall q hq
    · rcases ihpos with heq | ⟨l₁, l₂, hsplit, hlt, hwlt⟩
      · by_cases h : w.cumulative_profit < p.cumulative_profit
        · have hws : winnerStep w p = p := if_pos h
          right
          refine ⟨[], t, ?_, by simp, ?_⟩
          · rw [heq, hws]
            simp
          · rw [heq, hws]
            exact h
        · have hws : winnerStep w p = w := if_neg h
          left
          rw [heq, hws]
      · right
        refine ⟨p :: l₁, l₂, ?_, ?_, lt_of_le_of_lt hwle hwlt⟩
        · rw [List.cons_append, ← hsplit]
        · intro q hq
          rcases List.mem_cons.mp hq with hq | hq
          · rw [hq]
            exact lt_of_le_of_lt hple hwlt
          · exact hlt q hq

/-- Claim C10: for a non-empty player list, getWinner returns a player of
maximal cumulative profit and, among the tied maxima, the one at the
lowest index. -/
theorem getWinner_spec (players : List Player) (h : players ≠ []) :
    ∃ i, i < players.length ∧ getWinner players = players.getD i dummyPlayer ∧
      (∀ j, j < players.length →
        (players.getD j dummyPlayer).cumulative_profit ≤ (getWinner players).cumulative_profit) ∧
      ∀ j, j < i →
        (players.getD j dummyPlayer).cumulative_profit < (getWinner players).cumulative_profit := by
  obtain ⟨hall, hw, hpos⟩ := winnerFold_spec players (players.getD 0 dummyPlayer)
  have hmax : ∀ j, j < players.length →
      (players.getD j dummyPlayer).cumulative_profit ≤ (getWinner players).cumulative_profit := by
    intro j hj
    have hmem : players.getD j dummyPlayer ∈ players := by
      rw [List.getD_eq_getElem _ _ hj]
      exact List.getElem_mem _
    exact hall _ hmem
  rcases hpos with heq | ⟨l₁, l₂, hsplit, hlt, hwlt⟩
  · refine ⟨0, List.length_pos.mpr h, heq, hmax, ?_⟩
    intro j hj
    exact absurd hj (Nat.not_lt_zero j)
  · have hb : players.getD l₁.length dummyPlayer =
        List.foldl winnerStep (players.getD 0 dummyPlayer) players := by
      conv_lhs => rw [hsplit]
      rw [List.getD_append_right _ _ _ _ (le_refl _), Nat.sub_self, List.getD_cons_zero]
    refine ⟨l₁.length, ?_, ?_, hmax, ?_⟩
    · conv_rhs => rw [hsplit]
      simp only [List.length_append, List.length_cons]
      omega
    · rw [hb]
      rfl
    · intro j hj
      have hget : (players.getD j dummyPlayer) = l₁.getD j dummyPlayer := by
        conv_lhs => rw [hsplit]
        rw [List.getD_append _ _ _ _ hj]
      rw [hget]
      have hmem : l₁.getD j dummyPlayer ∈ l₁ := by
        rw [List.getD_eq_getElem _ _ hj]
        exact List.getElem_mem _
      exact hlt _ hmem

/-- Witness for C10 on a concrete tied player list. -/
theorem getWinner_spec_witness :
    ∃ i, i < exPlayersTied.length ∧ getWinner exPlayersTied = exPlayersTied.getD i dummyPlayer ∧
      (∀ j, j < exPlayersTied.length →
        (exPlayersTied.getD j dummyPlayer).cumulative_profit ≤
          (getWinner exPlayersTied).cumulative_profit) ∧
      ∀ j, j < i →
        (exPlayersTied.getD j dummyPlayer).cumulative_profit <
          (getWinner exPlayersTied).cumulative_profit :=
  getWinner_spec exPlayersTied (by with_unfolding_all decide)

/-! ### Claim C9: failed mutations leave the state unchanged -/

/-- Claim C9: whenever a mutation command (build well, build pipeline,
build refinery, upgrade refinery, set pipeline fee, set refinery fee)
returns a failure, the returned game state is exactly the input state: no
partial mutation occurs. -/
theorem mutation_failure_unchanged :
    (∀ st playerId nodeId st' e, buildWell st playerId nodeId = (st', .err e) → st' = st) ∧
    (∀ st playerId edgeId st' e, buildPipeline st playerId edgeId = (st', .err e) → st' = st) ∧
    (∀ st playerId nodeId st' e, buildRefinery st playerId nodeId = (st', .err e) → st' = st) ∧
    (∀ st playerId nodeId st' e, upgradeRefinery st playerId nodeId = (st', .err e) → st' = st) ∧
    (∀ st playerId edgeId fee st' e, setPipelineFee st playerId edgeId fee = (st', .err e) → st' = st) ∧
    (∀ st playerId nodeId fee st' e, setRefineryFee st playerId nodeId fee = (st', .err e) → st' = st) := by
  refine ⟨?_, ?_, ?_, ?_, ?_, ?_⟩
  · intro st playerId nodeId st' e h
    simp only [buildWell] at h
    split_ifs at h
    all_goals
      first
        | exact (congrArg Prod.fst h).symm
        | exact MutResult.noConfusion (congrArg Prod.snd h)
  · intro st playerId edgeId st' e h
    simp only [buildPipeline] at h
    split_ifs at h
    all_goals
      first
        | exact (congrArg Prod.fst h).symm
        | exact MutResult.noConfusion (congrArg Prod.snd h)
  · intro st playerId nodeId st' e h
    simp only [buildRefinery] at h
    split_ifs at h
    all_goals
      first
        | exact (congrArg Prod.fst h).symm
        | exact MutResult.noConfusion (congrArg Prod.snd h)
  · intro st playerId nodeId st' e h
    simp only [upgradeRefinery] at h
    rcases hm : (st.nodes.getD nodeId dummyNode).buildings.refinery with _ | ref
    · rw [hm] at h
      exact (congrArg Prod.fst h).symm
    · rw [hm] at h
      simp only at h
      split_ifs at h
      all_goals
        first
          | exact (congrArg Prod.fst h).symm
          | exact MutResult.noConfusion (congrArg Prod.snd h)
  · intro st playerId edgeId fee st' e h
    simp only [setPipelineFee] at h
    split_ifs at h
    all_goals
      first
        | exact (congrArg Prod.fst h).symm
        | exact MutResult.noConfusion (congrArg Prod.snd h)
  · intro st playerId nodeId fee st' e h
    simp only [setRefineryFee] at h
    rcases hm : (st.nodes.getD nodeId dummyNode).buildings.refinery with _ | ref
    · rw [hm] at h
      exact (congrArg Prod.fst h).symm
    · rw [hm] at h
      simp only at h
      split_ifs at h
      all_goals
        first
          | exact (congrArg Prod.fst h).symm
          | exact MutResult.noConfusion (congrArg Prod.snd h)

/-- Witness for C9: concrete failing calls of every command on a concrete
state, each leaving the state unchanged. -/
theorem mutation_failure_unchanged_witness :
    (buildWell exStTwo 0 1).1 = exStTwo ∧ (buildPipeline exStTwo 1 0).1 = exStTwo ∧
    (buildRefinery exStTwo 0 1).1 = exStTwo ∧ (upgradeRefinery exStTwo 0 0).1 = exStTwo ∧
    (setPipelineFee exStTwo 0 0 7).1 = exStTwo ∧ (setRefineryFee exStTwo 1 1 7).1 = exStTwo := by
  refine ⟨?_, ?_, ?_, ?_, ?_, ?_⟩
  · have h2 : (buildWell exStTwo 0 1).2 = MutResult.err .notProductionNode := by
      with_unfolding_all decide
    exact mutation_failure_unchanged.1 exStTwo 0 1 _ .notProductionNode
      (by rw [← h2])
  · have h2 : (buildPipeline exStTwo 1 0).2 = MutResult.err .insufficientFunds := by
      with_unfolding_all decide
    exact mutation_failure_unchanged.2.1 exStTwo 1 0 _ .insufficientFunds
      (by rw [← h2])
  · have h2 : (buildRefinery exStTwo 0 1).2 = MutResult.err .refineryExists := by
      with_unfolding_all decide
    exact mutation_failure_unchanged.2.2.1 exStTwo 0 1 _ .refineryExists
      (by rw [← h2])
  · have h2 : (upgradeRefinery exStTwo 0 0).2 = MutResult.err .noRefinery := by
      with_unfolding_all decide
    exact mutation_failure_unchanged.2.2.2.1 exStTwo 0 0 _ .noRefinery
      (by rw [← h2])
  · have h2 : (setPipelineFee exStTwo 0 0 7).2 = MutResult.err .notYourPipeline := by
      with_unfolding_all decide
    exact mutation_failure_unchanged.2.2.2.2.1 exStTwo 0 0 7 _ .notYourPipeline
      (by rw [← h2])
  · have h2 : (setRefineryFee exStTwo 1 1 7).2 = MutResult.err .notYourRefinery := by
      with_unfolding_all decide
    exact mutation_failure_unchanged.2.2.2.2.2 exStTwo 1 1 7 _ .notYourRefinery
      (by rw [← h2])


/-! ### Claims C5 and C6: the cheapest-supply selection -/

section ScanLemmas

variable (pf : Pathfinder) (settings : Settings) (nodes : List Node) (demandNodeId : Nat)

theorem scanRef_descent (prodId : Nat) (rs : List Nat) (acc : Money × Option (Nat × Nat)) :
    ((rs.foldl (scanRef pf settings nodes demandNodeId prodId) acc).1 : Money) ≤ acc.1 := by
  induction rs generalizing acc with
  | nil => exact le_refl _
  | cons r t ih =>
    rw [List.foldl_cons]
    refine le_trans (ih _) ?_
    unfold scanRef
    split_ifs with h1 h2
    · exact le_of_lt h2
    · exact le_refl _
    · exact le_refl _

theorem scanRef_bound (prodId : Nat) (rs : List Nat) (acc : Money × Option (Nat × Nat))
    (r : Nat) (hr : r ∈ rs)
    (hsome : ((nodes.getD r dummyNode).buildings.refinery).isSome = true) :
    ((rs.foldl (scanRef pf settings nodes demandNodeId prodId) acc).1 : Money) ≤
      pairCost pf settings nodes demandNodeId prodId r := by
  induction rs generalizing acc with
  | nil => cases hr
  | cons x t ih =>
    rw [List.foldl_cons]
    rcases List.mem_cons.mp hr with hx | ht
    · subst hx
      refine le_trans (scanRef_descent pf settings nodes demandNodeId prodId t _) ?_
      unfold scanRef
      rw [if_pos hsome]
      split_ifs with h
      · exact le_refl _
      · exact le_of_not_lt h
    · exact ih _ ht

theorem scanRef_noneTop (prodId : Nat) (rs : List Nat) (acc : Money × Option (Nat × Nat))
    (h : acc.2 = none → acc.1 = ⊤) :
    (rs.foldl (scanRef pf settings nodes demandNodeId prodId) acc).2 = none →
      ((rs.foldl (scanRef pf settings nodes demandNodeId prodId) acc).1 : Money) = ⊤ := by
  induction rs generalizing acc with
  | nil => exact h
  | cons x t ih =>
    rw [List.foldl_cons]
    refine ih _ ?_
    unfold scanRef
    split_ifs with h1 h2
    · intro hn
      cases hn
    · exact h
    · exact h

theorem scanProd_descent (ps : List Nat) (acc : Money × Option (Nat × Nat)) :
    ((ps.foldl (scanProd pf settings nodes demandNodeId) acc).1 : Money) ≤ acc.1 := by
  induction ps generalizing acc with
  | nil => exact le_refl _
  | cons p t ih =>
    rw [List.foldl_cons]
    refine le_trans (ih _) ?_
    unfold scanProd
    split_ifs with h1
    · exact scanRef_descent pf settings nodes demandNodeId p _ _
    · exact le_refl _

theorem scanProd_bound (ps : List Nat) (acc : Money × Option (Nat × Nat)) (p r : Nat)
    (hp : p ∈ ps) (hw : (nodes.getD p dummyNode).has_well = true) (hrn : r < nodes.length)
    (hsome : ((nodes.getD r dummyNode).buildings.refinery).isSome = true) :
    ((ps.foldl (scanProd pf settings nodes demandNodeId) acc).1 : Money) ≤
      pairCost pf settings nodes demandNodeId p r := by
  induction ps generalizing acc with
  | nil => cases hp
  | cons x t ih =>
    rw [List.foldl_cons]
    rcases List.mem_cons.mp hp with hx | ht
    · subst hx
      refine le_trans (scanProd_descent pf settings nodes demandNodeId t _) ?_
      unfold scanProd
      rw [if_pos hw]
      exact scanRef_bound pf settings nodes demandNodeId p _ _ r
        (List.mem_range.mpr hrn) hsome
    · exact ih _ ht

theorem scanProd_noneTop (ps : List Nat) (acc : Money × Option (Nat × Nat))
    (h : acc.2 = none → acc.1 = ⊤) :
    (ps.foldl (scanProd pf settings nodes demandNodeId) acc).2 = none →
      ((ps.foldl (scanProd pf settings nodes demandNodeId) acc).1 : Money) = ⊤ := by
  induction ps generalizing acc with
  | nil => exact h
  | cons x t ih =>
    rw [List.foldl_cons]
    refine ih _ ?_
    unfold scanProd
    split_ifs with h1
    · exact scanRef_noneTop pf settings nodes demandNodeId x _ _ h
    · exact h

theorem cheapestScan_bound (p r : Nat) (hp : p < nodes.length) (hr : r < nodes.length)
    (hw : (nodes.getD p dummyNode).has_well = true)
    (hsome : ((nodes.getD r dummyNode).buildings.refinery).isSome = true) :
    ((cheapestScan pf settings nodes demandNodeId).1 : Money) ≤
      pairCost pf settings nodes demandNodeId p r :=
  scanProd_bound pf settings nodes demandNodeId _ _ p r (List.mem_range.mpr hp) hw hr hsome

theorem cheapestScan_noneTop :
    (cheapestScan pf settings nodes demandNodeId).2 = none →
      ((cheapestScan pf settings nodes demandNodeId).1 : Money) = ⊤ :=
  scanProd_noneTop pf settings nodes demandNodeId _ _ (fun _ => rfl)

end ScanLemmas

/-- Claim C5: findCheapestSupply never returns a supply option whose cost
exceeds the import-only price of the consumption node (global price +
terminal fee + transport from the nearest terminal), and a player
production-to-refinery route is only returned when its total landed cost
is at most the import price. -/
theorem findCheapestSupply_le_import (pf : Pathfinder) (demandNodeId : Nat)
    (globalPrice terminalFee : ℚ) (settings : Settings) (nodes : List Node) :
    (findCheapestSupply pf demandNodeId globalPrice terminalFee settings nodes).cost ≤
      calculateLocalPrice pf demandNodeId globalPrice terminalFee nodes ∧
    (∀ p r d c,
      findCheapestSupply pf demandNodeId globalPrice terminalFee settings nodes =
        .player_supply p r d c →
      c ≤ calculateLocalPrice pf demandNodeId globalPrice terminalFee nodes) := by
  unfold findCheapestSupply
  split_ifs with h
  · exact ⟨le_refl _, fun p r d c hcontra => nomatch hcontra⟩
  · have hle : ((cheapestScan pf settings nodes demandNodeId).1 : Money) ≤
        calculateLocalPrice pf demandNodeId globalPrice terminalFee nodes := le_of_not_lt h
    rcases hacc2 : (cheapestScan pf settings nodes demandNodeId).2 with _ | pr
    · exact ⟨le_refl _, fun p r d c hcontra => nomatch hcontra⟩
    · refine ⟨hle, fun p r d c heq => ?_⟩
      injection heq with h1 h2 h3 h4
      rw [← h4]
      exact hle

/-- Witness for C5 on the one-node tie graph. -/
theorem findCheapestSupply_le_import_witness :
    (findCheapestSupply exPfTie 0 100 5 exSettings exNodesTie).cost ≤
      calculateLocalPrice exPfTie 0 100 5 exNodesTie ∧
    ((105 : ℚ) : Money) ≤ calculateLocalPrice exPfTie 0 100 5 exNodesTie :=
  ⟨(findCheapestSupply_le_import exPfTie 0 100 5 exSettings exNodesTie).1,
   (findCheapestSupply_le_import exPfTie 0 100 5 exSettings exNodesTie).2 0 0 0 ((105 : ℚ) : Money)
     (by with_unfolding_all decide)⟩

/-- Claim C6 counterexample: on the one-node graph where the cheapest
player route cost exactly equals the import price (both 105), the
function returns the player route, not the import option, so the tie-break
does not favor import. -/
theorem findCheapestSupply_tie_prefers_player :
    calculateLocalPrice exPfTie 0 100 5 exNodesTie = some 105 ∧
    findCheapestSupply exPfTie 0 100 5 exSettings exNodesTie =
      .player_supply 0 0 0 (some 105) := by
  with_unfolding_all decide

/-- Claim C6, amended: findCheapestSupply returns whichever supply option
is cheapest (its cost is bounded by every production-refinery pair cost
and by the import price), and whenever a usable production-refinery pair
exists whose cost is finite and at most the import price — in particular
at an exact tie — it deterministically returns the player supply route,
not the import option. -/
theorem findCheapestSupply_cheapest (pf : Pathfinder) (demandNodeId : Nat)
    (globalPrice terminalFee : ℚ) (settings : Settings) (nodes : List Node) :
    (∀ p r, p < nodes.length → r < nodes.length →
      (nodes.getD p dummyNode).has_well = true →
      ((nodes.getD r dummyNode).buildings.refinery).isSome = true →
      (findCheapestSupply pf demandNodeId globalPrice terminalFee settings nodes).cost ≤
        pairCost pf settings nodes demandNodeId p r) ∧
    (findCheapestSupply pf demandNodeId globalPrice terminalFee settings nodes).cost ≤
      calculateLocalPrice pf demandNodeId globalPrice terminalFee nodes ∧
    (∀ p r, p < nodes.length → r < nodes.length →
      (nodes.getD p dummyNode).has_well = true →
      ((nodes.getD r dummyNode).buildings.refinery).isSome = true →
      pairCost pf settings nodes demandNodeId p r ≠ ⊤ →
      pairCost pf settings nodes demandNodeId p r ≤
        calculateLocalPrice pf demandNodeId globalPrice terminalFee nodes →
      ∃ c, (∃ p₂ r₂,
          findCheapestSupply pf demandNodeId globalPrice terminalFee settings nodes =
            .player_supply p₂ r₂ demandNodeId c) ∧
        c ≤ calculateLocalPrice pf demandNodeId globalPrice terminalFee nodes ∧
        c ≤ pairCost pf settings nodes demandNodeId p r) := by
  refine ⟨?_, (findCheapestSupply_le_import pf demandNodeId globalPrice terminalFee
    settings nodes).1, ?_⟩
  · intro p r hp hr hw hsome
    have hb := cheapestScan_bound pf settings nodes demandNodeId p r hp hr hw hsome
    unfold findCheapestSupply
    split_ifs with h
    · exact le_trans (le_of_lt h) hb
    · rcases hacc2 : (cheapestScan pf settings nodes demandNodeId).2 with _ | pr
      · have htop := cheapestScan_noneTop pf settings nodes demandNodeId hacc2
        rw [htop] at hb
        have hpc : pairCost pf settings nodes demandNodeId p r = ⊤ := top_le_iff.mp hb
        rw [hpc]
        exact le_top
      · exact hb
  · intro p r hp hr hw hsome hfin hle
    have hb := cheapestScan_bound pf settings nodes demandNodeId p r hp hr hw hsome
    have hnotlt : ¬ (calculateLocalPrice pf demandNodeId globalPrice terminalFee nodes <
        (cheapestScan pf settings nodes demandNodeId).1) := by
      intro hcontra
      exact absurd (lt_of_lt_of_le (lt_of_lt_of_le hcontra hb) hle) (lt_irrefl _)
    rcases hacc2 : (cheapestScan pf settings nodes demandNodeId).2 with _ | pr
    · have htop := cheapestScan_noneTop pf settings nodes demandNodeId hacc2
      rw [htop] at hb
      exact absurd (top_le_iff.mp hb) hfin
    · refine ⟨(cheapestScan pf settings nodes demandNodeId).1, ⟨pr.1, pr.2, ?_⟩,
        le_trans hb hle, hb⟩
      unfold findCheapestSupply
      rw [if_neg hnotlt, hacc2]

/-- Witness for C6 on the one-node tie graph: the returned route is the
player route and its cost is bounded by the pair cost and import price. -/
theorem findCheapestSupply_cheapest_witness :
    (findCheapestSupply exPfTie 0 100 5 exSettings exNodesTie).cost ≤
      pairCost exPfTie exSettings exNodesTie 0 0 0 ∧
    ∃ c, (∃ p₂ r₂, findCheapestSupply exPfTie 0 100 5 exSettings exNodesTie =
        .player_supply p₂ r₂ 0 c) ∧
      c ≤ calculateLocalPrice exPfTie 0 100 5 exNodesTie ∧
      c ≤ pairCost exPfTie exSettings exNodesTie 0 0 0 :=
  ⟨(findCheapestSupply_cheapest exPfTie 0 100 5 exSettings exNodesTie).1 0 0
      (by decide) (by decide) (by with_unfolding_all decide) (by with_unfolding_all decide),
   (findCheapestSupply_cheapest exPfTie 0 100 5 exSettings exNodesTie).2.2 0 0
      (by decide) (by decide) (by with_unfolding_all decide) (by with_unfolding_all decide)
      (by with_unfolding_all decide) (by with_unfolding_all decide)⟩



/-! ### Claim C3: metric properties of the Floyd-Warshall matrix -/

theorem fwRelax_dist (pf : Pathfinder) (k i j : Nat) :
    (fwRelax pf k i j).dist = relaxD pf.dist k i j := by
  unfold fwRelax relaxD
  split_ifs <;> rfl

theorem fwInitEdge_dist (pf : Pathfinder) (e : Edge) :
    (fwInitEdge pf e).dist = initEdgeD pf.dist e := by
  unfold fwInitEdge initEdgeD
  split_ifs <;> rfl

theorem foldl_dist_proj {β : Type} (F : Pathfinder → β → Pathfinder)
    (g : List (List Money) → β → List (List Money))
    (hfg : ∀ pf x, (F pf x).dist = g pf.dist x) :
    ∀ (l : List β) (pf : Pathfinder), (l.foldl F pf).dist = l.foldl g pf.dist := by
  intro l
  induction l with
  | nil => intro pf; rfl
  | cons x t ih =>
    intro pf
    rw [List.foldl_cons, List.foldl_cons, ih, hfg]

theorem computeAllPaths_dist (nodes : List Node) (edges : List Edge) :
    (computeAllPaths nodes edges).dist = fwDist nodes.length edges := by
  unfold computeAllPaths fwDist initDiagD
  have h1 : ∀ (k i : Nat) (pf : Pathfinder),
      ((List.range nodes.length).foldl (fun pf j => fwRelax pf k i j) pf).dist =
        (List.range nodes.length).foldl (fun d j => relaxD d k i j) pf.dist :=
    fun k i => foldl_dist_proj _ _ (fun pf j => fwRelax_dist pf k i j) _
  have h2 : ∀ (k : Nat) (pf : Pathfinder),
      ((List.range nodes.length).foldl
          (fun pf i => (List.range nodes.length).foldl (fun pf j => fwRelax pf k i j) pf) pf).dist =
        (List.range nodes.length).foldl
          (fun d i => (List.range nodes.length).foldl (fun d j => relaxD d k i j) d) pf.dist :=
    fun k => foldl_dist_proj _ _ (fun pf i => h1 k i pf) _
  have h3 : ∀ (pf : Pathfinder),
      ((List.range nodes.length).foldl
          (fun pf k => (List.range nodes.length).foldl
            (fun pf i => (List.range nodes.length).foldl (fun pf j => fwRelax pf k i j) pf) pf)
          pf).dist =
        (List.range nodes.length).foldl (fwDistRound nodes.length) pf.dist :=
    foldl_dist_proj _ _ (fun pf k => h2 k pf) _
  rw [h3]
  have h4 : ∀ (es : List Edge) (pf : Pathfinder),
      (es.foldl fwInitEdge pf).dist = es.foldl initEdgeD pf.dist :=
    fun es => foldl_dist_proj _ _ fwInitEdge_dist es
  rw [h4]
  have h5 : ∀ (l : List Nat) (pf : Pathfinder),
      (l.foldl (fun pf i =>
          Pathfinder.mk (mset pf.dist i i ((0 : ℚ) : Money)) (mset pf.next i i (some i))) pf).dist =
        l.foldl (fun d i => mset d i i ((0 : ℚ) : Money)) pf.dist :=
    fun l => foldl_dist_proj _ _ (fun pf i => rfl) l
  rw [h5]

theorem relaxD_rect {n : Nat} {d : List (List Money)} (hr : Rect n d) (k i j : Nat) :
    Rect n (relaxD d k i j) := by
  unfold relaxD
  split_ifs
  · exact rect_mset hr i j _
  · exact hr

theorem relaxD_mget {n : Nat} {d : List (List Money)} (hr : Rect n d) {i j : Nat}
    (hi : i < n) (hj : j < n) (k a b : Nat) :
    mget ⊤ (relaxD d k i j) a b =
      if a = i ∧ b = j then min (mget ⊤ d i j) (mget ⊤ d i k + mget ⊤ d k j)
      else mget ⊤ d a b := by
  by_cases hab : a = i ∧ b = j
  · rw [if_pos hab]
    rcases hab with ⟨rfl, rfl⟩
    unfold relaxD
    split_ifs with h
    · rw [mget_mset hr ⊤ hi hj, if_pos ⟨rfl, rfl⟩]
      exact (min_eq_right (le_of_lt h)).symm
    · exact (min_eq_left (le_of_not_lt h)).symm
  · rw [if_neg hab]
    unfold relaxD
    split_ifs with h
    · rw [mget_mset hr ⊤ hi hj, if_neg hab]
    · rfl



theorem innerJ_spec {n : Nat} (k i : Nat) (hk : k < n) (hi : i < n) :
    ∀ (js : List Nat) (d : List (List Money)), js.Nodup → (∀ j ∈ js, j < n) →
      Rect n d → mget ⊤ d k k = 0 →
      Rect n (js.foldl (fun d j => relaxD d k i j) d) ∧
      ∀ a b, mget ⊤ (js.foldl (fun d j => relaxD d k i j) d) a b =
        if a = i ∧ b ∈ js then min (mget ⊤ d a b) (mget ⊤ d i k + mget ⊤ d k b)
        else mget ⊤ d a b := by
  intro js
  induction js with
  | nil =>
    intro d _ _ hr hkk
    exact ⟨hr, fun a b => by simp⟩
  | cons j t ih =>
    intro d hnd hbound hr hkk
    obtain ⟨hjt, hndt⟩ := List.nodup_cons.mp hnd
    have hjn : j < n := hbound j (List.mem_cons_self ..)
    have hboundt : ∀ x ∈ t, x < n := fun x hx => hbound x (List.mem_cons_of_mem _ hx)
    rw [List.foldl_cons]
    have hrect₁ : Rect n (relaxD d k i j) := relaxD_rect hr k i j
    have hchar : ∀ a b, mget ⊤ (relaxD d k i j) a b =
        if a = i ∧ b = j then min (mget ⊤ d i j) (mget ⊤ d i k + mget ⊤ d k j)
        else mget ⊤ d a b := relaxD_mget hr hi hjn k
    have hkk₁ : mget ⊤ (relaxD d k i j) k k = 0 := by
      rw [hchar k k]
      by_cases hcase : k = i ∧ k = j
      · rw [if_pos hcase]
        obtain ⟨h1, h2⟩ := hcase
        rw [← h1, ← h2, hkk]
        simp
      · rw [if_neg hcase]
        exact hkk
    obtain ⟨hrecT, hcharT⟩ := ih (relaxD d k i j) hndt hboundt hrect₁ hkk₁
    have hik : mget ⊤ (relaxD d k i j) i k = mget ⊤ d i k := by
      rw [hchar i k]
      by_cases hcase : i = i ∧ k = j
      · rw [if_pos hcase]
        obtain ⟨-, h2⟩ := hcase
        rw [← h2, hkk, add_zero, min_self]
      · rw [if_neg hcase]
    refine ⟨hrecT, fun a b => ?_⟩
    rw [hcharT a b]
    by_cases hai : a = i
    · subst hai
      by_cases hbt : b ∈ t
      · have hbj : b ≠ j := fun hc => hjt (hc ▸ hbt)
        rw [if_pos ⟨rfl, hbt⟩, if_pos ⟨rfl, List.mem_cons_of_mem _ hbt⟩]
        have h1 : mget ⊤ (relaxD d k a j) a b = mget ⊤ d a b := by
          rw [hchar a b, if_neg (fun hc => hbj hc.2)]
        have h2 : mget ⊤ (relaxD d k a j) k b = mget ⊤ d k b := by
          rw [hchar k b]
          by_cases hc : k = a ∧ b = j
          · exact absurd hc.2 hbj
          · rw [if_neg hc]
        rw [h1, h2, hik]
      · rw [if_neg (fun hc => hbt hc.2)]
        by_cases hbj : b = j
        · subst hbj
          rw [if_pos ⟨rfl, List.mem_cons_self ..⟩]
          rw [hchar a b, if_pos ⟨rfl, rfl⟩]
        · rw [if_neg (fun hc => (List.mem_cons.mp hc.2).elim hbj hbt)]
          rw [hchar a b, if_neg (fun hc => hbj hc.2)]
    · rw [if_neg (fun hc => hai hc.1), if_neg (fun hc => hai hc.1),
        hchar a b, if_neg (fun hc => hai hc.1)]

theorem middleI_spec {n : Nat} (k : Nat) (hk : k < n) :
    ∀ (is : List Nat) (d : List (List Money)), is.Nodup → (∀ i ∈ is, i < n) →
      Rect n d → mget ⊤ d k k = 0 →
      Rect n (is.foldl (fun d i => (List.range n).foldl (fun d j => relaxD d k i j) d) d) ∧
      ∀ a b, mget ⊤
          (is.foldl (fun d i => (List.range n).foldl (fun d j => relaxD d k i j) d) d) a b =
        if a ∈ is ∧ b < n then min (mget ⊤ d a b) (mget ⊤ d a k + mget ⊤ d k b)
        else mget ⊤ d a b := by
  intro is
  induction is with
  | nil =>
    intro d _ _ hr hkk
    exact ⟨hr, fun a b => by simp⟩
  | cons i t ih =>
    intro d hnd hbound hr hkk
    obtain ⟨hit, hndt⟩ := List.nodup_cons.mp hnd
    have hin : i < n := hbound i (List.mem_cons_self ..)
    have hboundt : ∀ x ∈ t, x < n := fun x hx => hbound x (List.mem_cons_of_mem _ hx)
    rw [List.foldl_cons]
    obtain ⟨hrect₁, hchar₀⟩ := innerJ_spec k i hk hin (List.range n) d (List.nodup_range n)
      (fun x hx => List.mem_range.mp hx) hr hkk
    have hchar : ∀ a b, mget ⊤ ((List.range n).foldl (fun d j => relaxD d k i j) d) a b =
        if a = i ∧ b < n then min (mget ⊤ d a b) (mget ⊤ d i k + mget ⊤ d k b)
        else mget ⊤ d a b := by
      intro a b
      rw [hchar₀ a b]
      by_cases hbn : b < n
      · by_cases hai : a = i
        · rw [if_pos ⟨hai, List.mem_range.mpr hbn⟩, if_pos ⟨hai, hbn⟩]
        · rw [if_neg (fun hc => hai hc.1), if_neg (fun hc => hai hc.1)]
      · rw [if_neg (fun hc => hbn (List.mem_range.mp hc.2)), if_neg (fun hc => hbn hc.2)]
    have hkb : ∀ b, mget ⊤ ((List.range n).foldl (fun d j => relaxD d k i j) d) k b =
        mget ⊤ d k b := by
      intro b
      rw [hchar k b]
      by_cases hc : k = i ∧ b < n
      · rw [if_pos hc]
        rw [← hc.1, hkk, zero_add, min_self]
      · rw [if_neg hc]
    have hkk₁ : mget ⊤ ((List.range n).foldl (fun d j => relaxD d k i j) d) k k = 0 := by
      rw [hkb k]
      exact hkk
    obtain ⟨hrecT, hcharT⟩ := ih _ hndt hboundt hrect₁ hkk₁
    refine ⟨hrecT, fun a b => ?_⟩
    rw [hcharT a b]
    by_cases hat : a ∈ t
    · have hai : a ≠ i := fun hc => hit (hc ▸ hat)
      by_cases hbn : b < n
      · rw [if_pos ⟨hat, hbn⟩, if_pos ⟨List.mem_cons_of_mem _ hat, hbn⟩]
        have h1 : mget ⊤ ((List.range n).foldl (fun d j => relaxD d k i j) d) a b =
            mget ⊤ d a b := by
          rw [hchar a b, if_neg (fun hc => hai hc.1)]
        have h2 : mget ⊤ ((List.range n).foldl (fun d j => relaxD d k i j) d) a k =
            mget ⊤ d a k := by
          rw [hchar a k, if_neg (fun hc => hai hc.1)]
        rw [h1, h2, hkb b]
      · rw [if_neg (fun hc => hbn hc.2), if_neg (fun hc => hbn hc.2),
          hchar a b, if_neg (fun hc => hbn hc.2)]
    · rw [if_neg (fun hc => hat hc.1)]
      by_cases hai : a = i
      · subst hai
        by_cases hbn : b < n
        · rw [if_pos ⟨List.mem_cons_self .., hbn⟩, hchar a b, if_pos ⟨rfl, hbn⟩]
        · rw [if_neg (fun hc => hbn hc.2), hchar a b, if_neg (fun hc => hbn hc.2)]
      · rw [if_neg (fun hc => (List.mem_cons.mp hc.1).elim hai hat),
          hchar a b, if_neg (fun hc => hai hc.1)]

theorem fwDistRound_spec {n : Nat} (k : Nat) (hk : k < n) (d : List (List Money))
    (hr : Rect n d) (hkk : mget ⊤ d k k = 0) :
    Rect n (fwDistRound n d k) ∧
    ∀ a b, mget ⊤ (fwDistRound n d k) a b =
      if a < n ∧ b < n then min (mget ⊤ d a b) (mget ⊤ d a k + mget ⊤ d k b)
      else mget ⊤ d a b := by
  obtain ⟨hrec, hchar⟩ := middleI_spec k hk (List.range n) d (List.nodup_range n)
    (fun x hx => List.mem_range.mp hx) hr hkk
  unfold fwDistRound
  refine ⟨hrec, fun a b => ?_⟩
  rw [hchar a b]
  by_cases han : a < n
  · by_cases hbn : b < n
    · rw [if_pos ⟨List.mem_range.mpr han, hbn⟩, if_pos ⟨han, hbn⟩]
    · rw [if_neg (fun hc => hbn hc.2), if_neg (fun hc => hbn hc.2)]
  · rw [if_neg (fun hc => han (List.mem_range.mp hc.1)), if_neg (fun hc => han hc.1)]



theorem fwDistRound_good {n : Nat} {S : List Nat} {d : List (List Money)} (k : Nat)
    (hk : k < n) (hg : GoodMat n S d) : GoodMat n (k :: S) (fwDistRound n d k) := by
  obtain ⟨hr, hdiag, hnn, hsym, hSb, htri⟩ := hg
  obtain ⟨hr2, hchar⟩ := fwDistRound_spec k hk d hr (hdiag k hk)
  have hdiag2 : ∀ i, i < n → mget ⊤ (fwDistRound n d k) i i = 0 := by
    intro i hi
    rw [hchar i i, if_pos ⟨hi, hi⟩, hdiag i hi]
    exact min_eq_left (add_nonneg (hnn i k) (hnn k i))
  have hnn2 : ∀ i j, 0 ≤ mget ⊤ (fwDistRound n d k) i j := by
    intro i j
    rw [hchar i j]
    split_ifs with h
    · exact le_min (hnn i j) (add_nonneg (hnn i k) (hnn k j))
    · exact hnn i j
  have hsym2 : ∀ i j, mget ⊤ (fwDistRound n d k) i j = mget ⊤ (fwDistRound n d k) j i := by
    intro i j
    rw [hchar i j, hchar j i]
    by_cases h : i < n ∧ j < n
    · rw [if_pos h, if_pos ⟨h.2, h.1⟩, hsym i j, hsym i k, hsym k j, add_comm]
    · rw [if_neg h, if_neg (fun hc => h ⟨hc.2, hc.1⟩), hsym i j]
  refine ⟨hr2, hdiag2, hnn2, hsym2, ?_, ?_⟩
  · intro x hx
    rcases List.mem_cons.mp hx with hxk | hxS
    · rw [hxk]
      exact hk
    · exact hSb x hxS
  · intro m hm i j
    by_cases hin : i < n
    · by_cases hjn : j < n
      · have hmn : m < n := by
          rcases List.mem_cons.mp hm with hmk | hmS
          · rw [hmk]
            exact hk
          · exact hSb m hmS
        rcases List.mem_cons.mp hm with hmk | hmS
        · subst hmk
          rw [hchar i j, if_pos ⟨hin, hjn⟩, hchar i m, if_pos ⟨hin, hmn⟩,
            hchar m j, if_pos ⟨hmn, hjn⟩, hdiag m hmn, add_zero, zero_add,
            min_self, min_self]
          exact min_le_right ..
        · rw [hchar i j, if_pos ⟨hin, hjn⟩, hchar i m, if_pos ⟨hin, hmn⟩,
            hchar m j, if_pos ⟨hmn, hjn⟩]
          have h0 : (0 : Money) ≤ mget ⊤ d k m + mget ⊤ d m k := by
            rw [← hdiag k hk]
            exact htri m hmS k k
          rcases min_cases (mget ⊤ d i m) (mget ⊤ d i k + mget ⊤ d k m) with
            ⟨he1, -⟩ | ⟨he1, -⟩ <;>
          rcases min_cases (mget ⊤ d m j) (mget ⊤ d m k + mget ⊤ d k j) with
            ⟨he2, -⟩ | ⟨he2, -⟩ <;> rw [he1, he2]
          · exact le_trans (min_le_left ..) (htri m hmS i j)
          · calc mget ⊤ d i j ⊓ (mget ⊤ d i k + mget ⊤ d k j) ≤
                mget ⊤ d i k + mget ⊤ d k j := min_le_right ..
              _ ≤ (mget ⊤ d i m + mget ⊤ d m k) + mget ⊤ d k j :=
                add_le_add_right (htri m hmS i k) _
              _ = mget ⊤ d i m + (mget ⊤ d m k + mget ⊤ d k j) := add_assoc ..
          · calc mget ⊤ d i j ⊓ (mget ⊤ d i k + mget ⊤ d k j) ≤
                mget ⊤ d i k + mget ⊤ d k j := min_le_right ..
              _ ≤ mget ⊤ d i k + (mget ⊤ d k m + mget ⊤ d m j) :=
                add_le_add_left (htri m hmS k j) _
              _ = (mget ⊤ d i k + mget ⊤ d k m) + mget ⊤ d m j := (add_assoc ..).symm
          · calc mget ⊤ d i j ⊓ (mget ⊤ d i k + mget ⊤ d k j) ≤
                mget ⊤ d i k + mget ⊤ d k j := min_le_right ..
              _ = mget ⊤ d i k + (0 + mget ⊤ d k j) := by rw [zero_add]
              _ ≤ mget ⊤ d i k + ((mget ⊤ d k m + mget ⊤ d m k) + mget ⊤ d k j) :=
                add_le_add_left (add_le_add_right h0 _) _
              _ = (mget ⊤ d i k + mget ⊤ d k m) + (mget ⊤ d m k + mget ⊤ d k j) := by
                abel
      · have hmj : mget ⊤ (fwDistRound n d k) m j = ⊤ :=
          mget_oob hr2 ⊤ (Or.inr (le_of_not_lt hjn))
        rw [hmj, add_top]
        exact le_top
    · have him : mget ⊤ (fwDistRound n d k) i m = ⊤ :=
        mget_oob hr2 ⊤ (Or.inl (le_of_not_lt hin))
      rw [him, top_add]
      exact le_top


theorem fwOuter_good {n : Nat} :
    ∀ (ks S : List Nat) (d : List (List Money)), (∀ x ∈ ks, x < n) → GoodMat n S d →
      ∃ S', (∀ x, x ∈ ks ∨ x ∈ S → x ∈ S') ∧
        GoodMat n S' (ks.foldl (fwDistRound n) d) := by
  intro ks
  induction ks with
  | nil =>
    intro S d _ hg
    exact ⟨S, fun x hx => hx.elim (fun hc => nomatch hc) id, hg⟩
  | cons k t ih =>
    intro S d hb hg
    have hk : k < n := hb k (List.mem_cons_self ..)
    have hbt : ∀ x ∈ t, x < n := fun x hx => hb x (List.mem_cons_of_mem _ hx)
    rw [List.foldl_cons]
    obtain ⟨S', hS', hgood⟩ := ih (k :: S) (fwDistRound n d k) hbt (fwDistRound_good k hk hg)
    refine ⟨S', fun x hx => ?_, hgood⟩
    rcases hx with hx | hx
    · rcases List.mem_cons.mp hx with hxk | hxt
      · exact hS' x (Or.inr (hxk ▸ List.mem_cons_self ..))
      · exact hS' x (Or.inl hxt)
    · exact hS' x (Or.inr (List.mem_cons_of_mem _ hx))

theorem diagFold_spec {n : Nat} :
    ∀ (l : List Nat) (d : List (List Money)), Rect n d → (∀ i ∈ l, i < n) →
      Rect n (l.foldl (fun d i => mset d i i ((0 : ℚ) : Money)) d) ∧
      ∀ a b, mget ⊤ (l.foldl (fun d i => mset d i i ((0 : ℚ) : Money)) d) a b =
        if a = b ∧ a ∈ l then ((0 : ℚ) : Money) else mget ⊤ d a b := by
  intro l
  induction l with
  | nil =>
    intro d hr _
    exact ⟨hr, fun a b => by simp⟩
  | cons i t ih =>
    intro d hr hb
    have hin : i < n := hb i (List.mem_cons_self ..)
    have hbt : ∀ x ∈ t, x < n := fun x hx => hb x (List.mem_cons_of_mem _ hx)
    rw [List.foldl_cons]
    obtain ⟨hrT, hcharT⟩ := ih (mset d i i ((0 : ℚ) : Money)) (rect_mset hr i i _) hbt
    refine ⟨hrT, fun a b => ?_⟩
    rw [hcharT a b]
    by_cases hab : a = b ∧ a ∈ t
    · rw [if_pos hab, if_pos ⟨hab.1, List.mem_cons_of_mem _ hab.2⟩]
    · rw [if_neg hab, mget_mset hr ⊤ hin hin]
      by_cases hii : a = i ∧ b = i
      · rw [if_pos hii, if_pos ⟨hii.1.trans hii.2.symm, hii.1 ▸ List.mem_cons_self ..⟩]
      · rw [if_neg hii]
        by_cases habl : a = b ∧ a ∈ i :: t
        · exfalso
          rcases List.mem_cons.mp habl.2 with hai | hat
          · exact hii ⟨hai, habl.1 ▸ hai⟩
          · exact hab ⟨habl.1, hat⟩
        · rw [if_neg habl]

theorem initDiagD_good (n : Nat) : GoodMat n [] (initDiagD n) ∧
    ∀ a b, mget ⊤ (initDiagD n) a b = if a = b ∧ a < n then ((0 : ℚ) : Money) else ⊤ := by
  obtain ⟨hr, hchar⟩ := diagFold_spec (List.range n) (mrepl n ⊤) (rect_mrepl n ⊤)
    (fun x hx => List.mem_range.mp hx)
  have hchar2 : ∀ a b, mget ⊤ (initDiagD n) a b = if a = b ∧ a < n then ((0 : ℚ) : Money) else ⊤ := by
    intro a b
    unfold initDiagD
    rw [hchar a b, mget_mrepl]
    by_cases hab : a = b ∧ a < n
    · rw [if_pos ⟨hab.1, List.mem_range.mpr hab.2⟩, if_pos hab]
    · rw [if_neg (fun hc => hab ⟨hc.1, List.mem_range.mp hc.2⟩), if_neg hab]
      split_ifs <;> rfl
  refine ⟨⟨hr, ?_, ?_, ?_, by simp, by simp⟩, hchar2⟩
  · intro i hi
    rw [hchar2 i i, if_pos ⟨rfl, hi⟩]
    rfl
  · intro i j
    rw [hchar2 i j]
    split_ifs
    · exact le_refl _
    · exact le_top
  · intro i j
    rw [hchar2 i j, hchar2 j i]
    by_cases hij : i = j
    · subst hij
      rfl
    · rw [if_neg (fun hc => hij hc.1), if_neg (fun hc => hij (hc.1.symm))]



theorem initEdgeD_rect {n : Nat} {d : List (List Money)} (hr : Rect n d) (e : Edge) :
    Rect n (initEdgeD d e) := by
  unfold initEdgeD
  split_ifs
  · exact rect_mset (rect_mset hr ..) ..
  · exact hr

theorem initEdgeD_good {n : Nat} {d : List (List Money)} (hg : GoodMat n [] d) (e : Edge)
    (hc : 0 ≤ getEdgeCost e) : GoodMat n [] (initEdgeD d e) := by
  obtain ⟨hr, hdiag, hnn, hsym, -, -⟩ := hg
  have hcm : (0 : Money) ≤ ((getEdgeCost e : ℚ) : Money) := by exact_mod_cast hc
  unfold initEdgeD
  split_ifs with hlt
  · by_cases hio : e.node_a < n ∧ e.node_b < n
    · obtain ⟨han, hbn⟩ := hio
      have hab : e.node_a ≠ e.node_b := by
        intro heq
        rw [heq, hdiag _ hbn] at hlt
        exact absurd hlt (not_lt.mpr hcm)
      have hvals : ∀ x y,
          mget ⊤ (mset (mset d e.node_a e.node_b ((getEdgeCost e : ℚ) : Money)) e.node_b
            e.node_a ((getEdgeCost e : ℚ) : Money)) x y =
          if x = e.node_b ∧ y = e.node_a then ((getEdgeCost e : ℚ) : Money)
          else if x = e.node_a ∧ y = e.node_b then ((getEdgeCost e : ℚ) : Money)
          else mget ⊤ d x y := by
        intro x y
        rw [mget_mset (rect_mset hr ..) ⊤ hbn han, mget_mset hr ⊤ han hbn]
      refine ⟨rect_mset (rect_mset hr ..) .., ?_, ?_, ?_, by simp, by simp⟩
      · intro i hi
        rw [hvals i i]
        rw [if_neg (fun hcon => hab (hcon.2.symm.trans hcon.1)),
          if_neg (fun hcon => hab (hcon.1.symm.trans hcon.2))]
        exact hdiag i hi
      · intro x y
        rw [hvals x y]
        split_ifs
        · exact hcm
        · exact hcm
        · exact hnn x y
      · intro x y
        rw [hvals x y, hvals y x]
        by_cases c1 : x = e.node_b ∧ y = e.node_a
        · rw [if_pos c1, if_neg (fun hcon => hab (c1.2.symm.trans hcon.1)),
            if_pos ⟨c1.2, c1.1⟩]
        · rw [if_neg c1]
          by_cases c2 : x = e.node_a ∧ y = e.node_b
          · rw [if_pos c2, if_pos ⟨c2.2, c2.1⟩]
          · rw [if_neg c2, if_neg (fun hcon => c2 ⟨hcon.2, hcon.1⟩),
              if_neg (fun hcon => c1 ⟨hcon.2, hcon.1⟩)]
            exact hsym x y
    · have hor : n ≤ e.node_a ∨ n ≤ e.node_b := by
        rcases Nat.lt_or_ge e.node_a n with h1 | h1
        · rcases Nat.lt_or_ge e.node_b n with h2 | h2
          · exact absurd ⟨h1, h2⟩ hio
          · exact Or.inr h2
        · exact Or.inl h1
      have hvals : ∀ x y,
          mget ⊤ (mset (mset d e.node_a e.node_b ((getEdgeCost e : ℚ) : Money)) e.node_b
            e.node_a ((getEdgeCost e : ℚ) : Money)) x y = mget ⊤ d x y := by
        intro x y
        rw [mget_mset_oob (rect_mset hr ..) ⊤ hor.symm, mget_mset_oob hr ⊤ hor]
      refine ⟨rect_mset (rect_mset hr ..) .., ?_, ?_, ?_, by simp, by simp⟩
      · intro i hi
        rw [hvals i i]
        exact hdiag i hi
      · intro x y
        rw [hvals x y]
        exact hnn x y
      · intro x y
        rw [hvals x y, hvals y x]
        exact hsym x y
  · exact ⟨hr, hdiag, hnn, hsym, by simp, by simp⟩

theorem edgesFold_good {n : Nat} :
    ∀ (es : List Edge) (d : List (List Money)), GoodMat n [] d →
      (∀ e ∈ es, 0 ≤ getEdgeCost e) → GoodMat n [] (es.foldl initEdgeD d) := by
  intro es
  induction es with
  | nil => exact fun d hg _ => hg
  | cons e t ih =>
    intro d hg hc
    rw [List.foldl_cons]
    exact ih _ (initEdgeD_good hg e (hc e (List.mem_cons_self ..)))
      (fun x hx => hc x (List.mem_cons_of_mem _ hx))

/-- Claim C3: for every graph with non-negative edge costs, the distance
matrix built by computeAllPaths has zero diagonal, is symmetric, and
satisfies the triangle inequality, with unreachable pairs held at the top
sentinel (the embedding of Infinity). -/
theorem computeAllPaths_metric (nodes : List Node) (edges : List Edge)
    (hc : ∀ e ∈ edges, 0 ≤ getEdgeCost e) :
    (∀ i, i < nodes.length → mget ⊤ (computeAllPaths nodes edges).dist i i = 0) ∧
    (∀ i j, mget ⊤ (computeAllPaths nodes edges).dist i j =
      mget ⊤ (computeAllPaths nodes edges).dist j i) ∧
    (∀ i j k, mget ⊤ (computeAllPaths nodes edges).dist i k ≤
      mget ⊤ (computeAllPaths nodes edges).dist i j +
        mget ⊤ (computeAllPaths nodes edges).dist j k) := by
  rw [computeAllPaths_dist]
  have hinit : GoodMat nodes.length [] (edges.foldl initEdgeD (initDiagD nodes.length)) :=
    edgesFold_good edges _ (initDiagD_good nodes.length).1 hc
  obtain ⟨S', hS', hgood⟩ := fwOuter_good (List.range nodes.length) [] _
    (fun x hx => List.mem_range.mp hx) hinit
  obtain ⟨hr, hdiag, hnn, hsym, hSb, htri⟩ := hgood
  have hfold : fwDist nodes.length edges =
      (List.range nodes.length).foldl (fwDistRound nodes.length)
        (edges.foldl initEdgeD (initDiagD nodes.length)) := rfl
  rw [hfold]
  refine ⟨hdiag, hsym, ?_⟩
  intro i j k
  by_cases hjn : j < nodes.length
  · exact htri j (hS' j (Or.inl (List.mem_range.mpr hjn))) i k
  · have hij : mget ⊤ ((List.range nodes.length).foldl (fwDistRound nodes.length)
        (edges.foldl initEdgeD (initDiagD nodes.length))) i j = ⊤ :=
      mget_oob hr ⊤ (Or.inr (le_of_not_lt hjn))
    rw [hij, top_add]
    exact le_top

/-- Witness for C3 on the concrete two-node graph. -/
theorem computeAllPaths_metric_witness :
    mget ⊤ (computeAllPaths exNodesTwo exEdgesTwo).dist 0 0 = 0 ∧
    mget ⊤ (computeAllPaths exNodesTwo exEdgesTwo).dist 0 1 =
      mget ⊤ (computeAllPaths exNodesTwo exEdgesTwo).dist 1 0 ∧
    mget ⊤ (computeAllPaths exNodesTwo exEdgesTwo).dist 0 1 ≤
      mget ⊤ (computeAllPaths exNodesTwo exEdgesTwo).dist 0 0 +
        mget ⊤ (computeAllPaths exNodesTwo exEdgesTwo).dist 0 1 :=
  ⟨(computeAllPaths_metric exNodesTwo exEdgesTwo (by with_unfolding_all decide)).1 0
      (by decide),
   (computeAllPaths_metric exNodesTwo exEdgesTwo (by with_unfolding_all decide)).2.1 0 1,
   (computeAllPaths_metric exNodesTwo exEdgesTwo (by with_unfolding_all decide)).2.2 0 0 1⟩



/-! ### Claim C4: relaxing an edge never increases shortest costs -/

theorem relaxD_mono {n : Nat} {d₁ d₂ : List (List Money)} (hr₁ : Rect n d₁)
    (hr₂ : Rect n d₂) {i j : Nat} (hi : i < n) (hj : j < n) (k : Nat)
    (hle : ∀ a b, mget ⊤ d₁ a b ≤ mget ⊤ d₂ a b) :
    ∀ a b, mget ⊤ (relaxD d₁ k i j) a b ≤ mget ⊤ (relaxD d₂ k i j) a b := by
  intro a b
  rw [relaxD_mget hr₁ hi hj, relaxD_mget hr₂ hi hj]
  split_ifs with h
  · exact min_le_min (hle i j) (add_le_add (hle i k) (hle k j))
  · exact hle a b

theorem foldRelaxJ_rect {n : Nat} (k i : Nat) :
    ∀ (js : List Nat) (d : List (List Money)), Rect n d →
      Rect n (js.foldl (fun d j => relaxD d k i j) d) := by
  intro js
  induction js with
  | nil => exact fun d hr => hr
  | cons j t ih =>
    intro d hr
    rw [List.foldl_cons]
    exact ih _ (relaxD_rect hr k i j)

theorem foldRelaxJ_mono {n : Nat} (k i : Nat) (hi : i < n) :
    ∀ (js : List Nat), (∀ j ∈ js, j < n) →
      ∀ (d₁ d₂ : List (List Money)), Rect n d₁ → Rect n d₂ →
      (∀ a b, mget ⊤ d₁ a b ≤ mget ⊤ d₂ a b) →
      ∀ a b, mget ⊤ (js.foldl (fun d j => relaxD d k i j) d₁) a b ≤
        mget ⊤ (js.foldl (fun d j => relaxD d k i j) d₂) a b := by
  intro js
  induction js with
  | nil => exact fun _ d₁ d₂ _ _ hle => hle
  | cons j t ih =>
    intro hb d₁ d₂ hr₁ hr₂ hle
    rw [List.foldl_cons, List.foldl_cons]
    exact ih (fun x hx => hb x (List.mem_cons_of_mem _ hx)) _ _
      (relaxD_rect hr₁ k i j) (relaxD_rect hr₂ k i j)
      (relaxD_mono hr₁ hr₂ hi (hb j (List.mem_cons_self ..)) k hle)

theorem foldRelaxI_rect {n : Nat} (k : Nat) :
    ∀ (is : List Nat) (d : List (List Money)), Rect n d →
      Rect n (is.foldl (fun d i => (List.range n).foldl (fun d j => relaxD d k i j) d) d) := by
  intro is
  induction is with
  | nil => exact fun d hr => hr
  | cons i t ih =>
    intro d hr
    rw [List.foldl_cons]
    exact ih _ (foldRelaxJ_rect k i _ _ hr)

theorem foldRelaxI_mono {n : Nat} (k : Nat) :
    ∀ (is : List Nat), (∀ i ∈ is, i < n) →
      ∀ (d₁ d₂ : List (List Money)), Rect n d₁ → Rect n d₂ →
      (∀ a b, mget ⊤ d₁ a b ≤ mget ⊤ d₂ a b) →
      ∀ a b,
        mget ⊤ (is.foldl (fun d i => (List.range n).foldl (fun d j => relaxD d k i j) d) d₁) a b ≤
        mget ⊤ (is.foldl (fun d i => (List.range n).foldl (fun d j => relaxD d k i j) d) d₂) a b := by
  intro is
  induction is with
  | nil => exact fun _ d₁ d₂ _ _ hle => hle
  | cons i t ih =>
    intro hb d₁ d₂ hr₁ hr₂ hle
    rw [List.foldl_cons, List.foldl_cons]
    exact ih (fun x hx => hb x (List.mem_cons_of_mem _ hx)) _ _
      (foldRelaxJ_rect k i _ _ hr₁) (foldRelaxJ_rect k i _ _ hr₂)
      (foldRelaxJ_mono k i (hb i (List.mem_cons_self ..)) (List.range n)
        (fun x hx => List.mem_range.mp hx) d₁ d₂ hr₁ hr₂ hle)

theorem foldRound_rect {n : Nat} :
    ∀ (ks : List Nat) (d : List (List Money)), Rect n d →
      Rect n (ks.foldl (fwDistRound n) d) := by
  intro ks
  induction ks with
  | nil => exact fun d hr => hr
  | cons k t ih =>
    intro d hr
    rw [List.foldl_cons]
    exact ih _ (foldRelaxI_rect k _ _ hr)

theorem foldRound_mono {n : Nat} :
    ∀ (ks : List Nat) (d₁ d₂ : List (List Money)), Rect n d₁ → Rect n d₂ →
      (∀ a b, mget ⊤ d₁ a b ≤ mget ⊤ d₂ a b) →
      ∀ a b, mget ⊤ (ks.foldl (fwDistRound n) d₁) a b ≤
        mget ⊤ (ks.foldl (fwDistRound n) d₂) a b := by
  intro ks
  induction ks with
  | nil => exact fun d₁ d₂ _ _ hle => hle
  | cons k t ih =>
    intro d₁ d₂ hr₁ hr₂ hle
    rw [List.foldl_cons, List.foldl_cons]
    exact ih _ _ (foldRelaxI_rect k _ _ hr₁) (foldRelaxI_rect k _ _ hr₂)
      (foldRelaxI_mono k (List.range n) (fun x hx => List.mem_range.mp hx) d₁ d₂ hr₁ hr₂ hle)

theorem initEdgeD_oobvals {n : Nat} {d : List (List Money)} (hr : Rect n d) (e : Edge)
    (hor : n ≤ e.node_a ∨ n ≤ e.node_b) :
    ∀ x y, mget ⊤ (initEdgeD d e) x y = mget ⊤ d x y := by
  intro x y
  unfold initEdgeD
  split_ifs
  · rw [mget_mset_oob (rect_mset hr ..) ⊤ hor.symm, mget_mset_oob hr ⊤ hor]
  · rfl

theorem initEdgeD_char {n : Nat} {d : List (List Money)} (hr : Rect n d)
    (hsym : ∀ a b, mget ⊤ d a b = mget ⊤ d b a) (e : Edge)
    (han : e.node_a < n) (hbn : e.node_b < n) :
    ∀ x y, mget ⊤ (initEdgeD d e) x y =
      if (x = e.node_a ∧ y = e.node_b) ∨ (x = e.node_b ∧ y = e.node_a) then
        min (mget ⊤ d x y) ((getEdgeCost e : ℚ) : Money)
      else mget ⊤ d x y := by
  intro x y
  by_cases hcond : (x = e.node_a ∧ y = e.node_b) ∨ (x = e.node_b ∧ y = e.node_a)
  · rw [if_pos hcond]
    unfold initEdgeD
    split_ifs with hlt
    · have hval : mget ⊤ (mset (mset d e.node_a e.node_b ((getEdgeCost e : ℚ) : Money))
          e.node_b e.node_a ((getEdgeCost e : ℚ) : Money)) x y =
          ((getEdgeCost e : ℚ) : Money) := by
        rw [mget_mset (rect_mset hr ..) ⊤ hbn han, mget_mset hr ⊤ han hbn]
        rcases hcond with ⟨hx, hy⟩ | ⟨hx, hy⟩
        · subst hx
          subst hy
          by_cases h1 : e.node_a = e.node_b ∧ e.node_b = e.node_a
          · rw [if_pos h1]
          · rw [if_neg h1, if_pos ⟨rfl, rfl⟩]
        · subst hx
          subst hy
          rw [if_pos ⟨rfl, rfl⟩]
      rw [hval]
      rcases hcond with ⟨hx, hy⟩ | ⟨hx, hy⟩
      · subst hx
        subst hy
        exact (min_eq_right (le_of_lt hlt)).symm
      · subst hx
        subst hy
        rw [hsym e.node_b e.node_a]
        exact (min_eq_right (le_of_lt hlt)).symm
    · rcases hcond with ⟨hx, hy⟩ | ⟨hx, hy⟩
      · subst hx
        subst hy
        exact (min_eq_left (le_of_not_lt hlt)).symm
      · subst hx
        subst hy
        rw [hsym e.node_b e.node_a]
        exact (min_eq_left (le_of_not_lt hlt)).symm
  · rw [if_neg hcond]
    unfold initEdgeD
    split_ifs with hlt
    · rw [mget_mset (rect_mset hr ..) ⊤ hbn han, mget_mset hr ⊤ han hbn,
        if_neg (fun hc => hcond (Or.inr hc)), if_neg (fun hc => hcond (Or.inl hc))]
    · rfl

theorem initEdgeD_sym {n : Nat} {d : List (List Money)} (hr : Rect n d)
    (hsym : ∀ a b, mget ⊤ d a b = mget ⊤ d b a) (e : Edge) :
    ∀ x y, mget ⊤ (initEdgeD d e) x y = mget ⊤ (initEdgeD d e) y x := by
  intro x y
  by_cases hio : e.node_a < n ∧ e.node_b < n
  · rw [initEdgeD_char hr hsym e hio.1 hio.2 x y, initEdgeD_char hr hsym e hio.1 hio.2 y x]
    by_cases hcond : (x = e.node_a ∧ y = e.node_b) ∨ (x = e.node_b ∧ y = e.node_a)
    · rw [if_pos hcond, if_pos (hcond.elim (fun hc => Or.inr ⟨hc.2, hc.1⟩)
        (fun hc => Or.inl ⟨hc.2, hc.1⟩)), hsym x y]
    · rw [if_neg hcond, if_neg (fun hc => hcond (hc.elim (fun hc => Or.inr ⟨hc.2, hc.1⟩)
        (fun hc => Or.inl ⟨hc.2, hc.1⟩))), hsym x y]
  · have hor : n ≤ e.node_a ∨ n ≤ e.node_b := by
      rcases Nat.lt_or_ge e.node_a n with h1 | h1
      · rcases Nat.lt_or_ge e.node_b n with h2 | h2
        · exact absurd ⟨h1, h2⟩ hio
        · exact Or.inr h2
      · exact Or.inl h1
    rw [initEdgeD_oobvals hr e hor x y, initEdgeD_oobvals hr e hor y x, hsym x y]

theorem initEdgeD_mono {n : Nat} {d₁ d₂ : List (List Money)} (hr₁ : Rect n d₁)
    (hr₂ : Rect n d₂) (hsym₁ : ∀ a b, mget ⊤ d₁ a b = mget ⊤ d₁ b a)
    (hsym₂ : ∀ a b, mget ⊤ d₂ a b = mget ⊤ d₂ b a) {e₁ e₂ : Edge}
    (hna : e₁.node_a = e₂.node_a) (hnb : e₁.node_b = e₂.node_b)
    (hce : getEdgeCost e₁ ≤ getEdgeCost e₂)
    (hle : ∀ a b, mget ⊤ d₁ a b ≤ mget ⊤ d₂ a b) :
    ∀ x y, mget ⊤ (initEdgeD d₁ e₁) x y ≤ mget ⊤ (initEdgeD d₂ e₂) x y := by
  intro x y
  by_cases hio : e₂.node_a < n ∧ e₂.node_b < n
  · rw [initEdgeD_char hr₁ hsym₁ e₁ (hna ▸ hio.1) (hnb ▸ hio.2) x y,
      initEdgeD_char hr₂ hsym₂ e₂ hio.1 hio.2 x y, hna, hnb]
    split_ifs with h
    · exact min_le_min (hle x y) (by exact_mod_cast hce)
    · exact hle x y
  · have hor : n ≤ e₂.node_a ∨ n ≤ e₂.node_b := by
      rcases Nat.lt_or_ge e₂.node_a n with h1 | h1
      · rcases Nat.lt_or_ge e₂.node_b n with h2 | h2
        · exact absurd ⟨h1, h2⟩ hio
        · exact Or.inr h2
      · exact Or.inl h1
    have hor₁ : n ≤ e₁.node_a ∨ n ≤ e₁.node_b := by
      rw [hna, hnb]
      exact hor
    rw [initEdgeD_oobvals hr₁ e₁ hor₁ x y, initEdgeD_oobvals hr₂ e₂ hor x y]
    exact hle x y

/-- The edge relation under which relaxation is monotone: same endpoints,
and the first edge is at most as expensive. -/
def EdgeLE (e₁ e₂ : Edge) : Prop :=
  e₁.node_a = e₂.node_a ∧ e₁.node_b = e₂.node_b ∧ getEdgeCost e₁ ≤ getEdgeCost e₂

theorem edgesFold_mono {n : Nat} :
    ∀ {es₁ es₂ : List Edge}, List.Forall₂ EdgeLE es₁ es₂ →
      ∀ (d₁ d₂ : List (List Money)), Rect n d₁ → Rect n d₂ →
      (∀ a b, mget ⊤ d₁ a b = mget ⊤ d₁ b a) → (∀ a b, mget ⊤ d₂ a b = mget ⊤ d₂ b a) →
      (∀ a b, mget ⊤ d₁ a b ≤ mget ⊤ d₂ a b) →
      Rect n (es₁.foldl initEdgeD d₁) ∧ Rect n (es₂.foldl initEdgeD d₂) ∧
      (∀ a b, mget ⊤ (es₁.foldl initEdgeD d₁) a b ≤ mget ⊤ (es₂.foldl initEdgeD d₂) a b) := by
  intro es₁ es₂ hrel
  induction hrel with
  | nil => exact fun d₁ d₂ hr₁ hr₂ _ _ hle => ⟨hr₁, hr₂, hle⟩
  | cons hE hrest ih =>
    intro d₁ d₂ hr₁ hr₂ hsym₁ hsym₂ hle
    rw [List.foldl_cons, List.foldl_cons]
    exact ih _ _ (initEdgeD_rect hr₁ _) (initEdgeD_rect hr₂ _)
      (initEdgeD_sym hr₁ hsym₁ _) (initEdgeD_sym hr₂ hsym₂ _)
      (initEdgeD_mono hr₁ hr₂ hsym₁ hsym₂ hE.1 hE.2.1 hE.2.2 hle)

theorem fwDist_mono (n : Nat) {es₁ es₂ : List Edge} (hrel : List.Forall₂ EdgeLE es₁ es₂) :
    ∀ i j, mget ⊤ (fwDist n es₁) i j ≤ mget ⊤ (fwDist n es₂) i j := by
  obtain ⟨⟨hr0, hdiag0, hnn0, hsym0, -, -⟩, -⟩ := initDiagD_good n
  obtain ⟨hr₁, hr₂, hle⟩ := edgesFold_mono hrel (initDiagD n) (initDiagD n) hr0 hr0
    hsym0 hsym0 (fun a b => le_refl _)
  exact foldRound_mono (List.range n) _ _ hr₁ hr₂ hle



theorem getEdgeCost_nopipe (e : Edge) (h : e.transportation.pipeline.owner = none) :
    getEdgeCost e =
      (if e.transportation.rail.available then
        min e.transportation.truck.cost e.transportation.rail.cost
      else e.transportation.truck.cost) := by
  simp [getEdgeCost, h]

theorem getEdgeCost_pipe (e : Edge) (h : (e.transportation.pipeline.owner).isSome = true) :
    getEdgeCost e =
      min (if e.transportation.rail.available then
          min e.transportation.truck.cost e.transportation.rail.cost
        else e.transportation.truck.cost) e.transportation.pipeline.fee := by
  simp [getEdgeCost, h]

theorem forall₂_set_left {α : Type} (R : α → α → Prop) (dflt : α) :
    ∀ (l : List α) (i : Nat) (x : α), (∀ y ∈ l, R y y) → R x (l.getD i dflt) →
      List.Forall₂ R (l.set i x) l := by
  intro l
  induction l with
  | nil => exact fun i x _ _ => List.Forall₂.nil
  | cons y t ih =>
    intro i x hrefl hx
    cases i with
    | zero =>
      exact List.Forall₂.cons (by simpa using hx)
        (List.forall₂_same.mpr (fun z hz => hrefl z (List.mem_cons_of_mem _ hz)))
    | succ i =>
      exact List.Forall₂.cons (hrefl y (List.mem_cons_self ..))
        (ih i x (fun z hz => hrefl z (List.mem_cons_of_mem _ hz)) (by simpa using hx))

/-- Claim C4: building a new pipeline on an edge, or lowering the fee of an
owned pipeline, followed by the pathfinder rebuild the mutation performs,
can only decrease or preserve every shortest cost, never increase it. -/
theorem relaxation_monotone :
    (∀ (st : GameState) (playerId edgeId : Nat) (st' : GameState),
      buildPipeline st playerId edgeId = (st', .ok) →
      ∀ i j, mget ⊤ st'.pathfinder.dist i j ≤
        mget ⊤ (computeAllPaths st.nodes st.edges).dist i j) ∧
    (∀ (st : GameState) (playerId edgeId : Nat) (fee : ℚ) (st' : GameState),
      setPipelineFee st playerId edgeId fee = (st', .ok) →
      fee ≤ (st.edges.getD edgeId dummyEdge).transportation.pipeline.fee →
      ∀ i j, mget ⊤ st'.pathfinder.dist i j ≤
        mget ⊤ (computeAllPaths st.nodes st.edges).dist i j) := by
  constructor
  · intro st playerId edgeId st' h
    simp only [buildPipeline] at h
    split_ifs at h with h1 h2
    · exact absurd (congrArg Prod.snd h) (by simp)
    · exact absurd (congrArg Prod.snd h) (by simp)
    · have hst : st' =
          { st with
            players := st.players.set playerId
              { st.players.getD playerId dummyPlayer with
                cash := jsSub (st.players.getD playerId dummyPlayer).cash
                  ((st.settings.PIPELINE_COST_PER_EDGE : ℚ) : Money),
                assets :=
                  { (st.players.getD playerId dummyPlayer).assets with
                    pipelines :=
                      (st.players.getD playerId dummyPlayer).assets.pipelines ++ [edgeId] } },
            edges := st.edges.set edgeId
              { st.edges.getD edgeId dummyEdge with
                transportation :=
                  { (st.edges.getD edgeId dummyEdge).transportation with
                    pipeline :=
                      { owner := some playerId,
                        capacity := st.settings.PIPELINE_BASE_CAPACITY,
                        fee := st.settings.PIPELINE_DEFAULT_FEE,
                        utilization := 0 } } },
            pathfinder := computeAllPaths st.nodes (st.edges.set edgeId
              { st.edges.getD edgeId dummyEdge with
                transportation :=
                  { (st.edges.getD edgeId dummyEdge).transportation with
                    pipeline :=
                      { owner := some playerId,
                        capacity := st.settings.PIPELINE_BASE_CAPACITY,
                        fee := st.settings.PIPELINE_DEFAULT_FEE,
                        utilization := 0 } } }) } := (congrArg Prod.fst h).symm
      subst hst
      intro i j
      have key : ∀ i j, mget ⊤ (computeAllPaths st.nodes (st.edges.set edgeId
          { st.edges.getD edgeId dummyEdge with
            transportation :=
              { (st.edges.getD edgeId dummyEdge).transportation with
                pipeline :=
                  { owner := some playerId,
                    capacity := st.settings.PIPELINE_BASE_CAPACITY,
                    fee := st.settings.PIPELINE_DEFAULT_FEE,
                    utilization := 0 } } })).dist i j ≤
          mget ⊤ (computeAllPaths st.nodes st.edges).dist i j := by
        intro i j
        rw [computeAllPaths_dist, computeAllPaths_dist]
        rcases Nat.lt_or_ge edgeId st.edges.length with hlen | hlen
        · refine fwDist_mono st.nodes.length
            (forall₂_set_left EdgeLE dummyEdge st.edges edgeId _
              (fun y _ => ⟨rfl, rfl, le_refl _⟩) ?_) i j
          have howner : (st.edges.getD edgeId dummyEdge).transportation.pipeline.owner = none :=
            Option.not_isSome_iff_eq_none.mp h1
          refine ⟨rfl, rfl, ?_⟩
          rw [getEdgeCost_pipe _ (by rfl), getEdgeCost_nopipe _ howner]
          exact min_le_left ..
        · rw [List.set_eq_of_length_le hlen]
      exact key i j
  · intro st playerId edgeId fee st' h hfee
    simp only [setPipelineFee] at h
    split_ifs at h with h1
    · exact absurd (congrArg Prod.snd h) (by simp)
    · have howner : (st.edges.getD edgeId dummyEdge).transportation.pipeline.owner =
          some playerId := not_ne_iff.mp h1
      have hst : st' =
          { st with
            edges := st.edges.set edgeId
              { st.edges.getD edgeId dummyEdge with
                transportation :=
                  { (st.edges.getD edgeId dummyEdge).transportation with
                    pipeline :=
                      { (st.edges.getD edgeId dummyEdge).transportation.pipeline with
                        fee := fee } } },
            pathfinder := computeAllPaths st.nodes (st.edges.set edgeId
              { st.edges.getD edgeId dummyEdge with
                transportation :=
                  { (st.edges.getD edgeId dummyEdge).transportation with
                    pipeline :=
                      { (st.edges.getD edgeId dummyEdge).transportation.pipeline with
                        fee := fee } } }) } := (congrArg Prod.fst h).symm
      subst hst
      intro i j
      have key : ∀ i j, mget ⊤ (computeAllPaths st.nodes (st.edges.set edgeId
          { st.edges.getD edgeId dummyEdge with
            transportation :=
              { (st.edges.getD edgeId dummyEdge).transportation with
                pipeline :=
                  { (st.edges.getD edgeId dummyEdge).transportation.pipeline with
                    fee := fee } } })).dist i j ≤
          mget ⊤ (computeAllPaths st.nodes st.edges).dist i j := by
        intro i j
        rw [computeAllPaths_dist, computeAllPaths_dist]
        rcases Nat.lt_or_ge edgeId st.edges.length with hlen | hlen
        · refine fwDist_mono st.nodes.length
            (forall₂_set_left EdgeLE dummyEdge st.edges edgeId _
              (fun y _ => ⟨rfl, rfl, le_refl _⟩) ?_) i j
          refine ⟨rfl, rfl, ?_⟩
          rw [getEdgeCost_pipe _ (by rw [howner]; rfl), getEdgeCost_pipe _ (by rw [howner]; rfl)]
          exact min_le_min_left _ hfee
        · rw [List.set_eq_of_length_le hlen]
      exact key i j

/-- Witness for C4: a concrete successful pipeline build and a concrete fee
cut, each leaving the shortest cost between the two nodes no larger. -/
theorem relaxation_monotone_witness :
    mget ⊤ (buildPipeline exStRich 0 0).1.pathfinder.dist 0 1 ≤
      mget ⊤ (computeAllPaths exStRich.nodes exStRich.edges).dist 0 1 ∧
    mget ⊤ (setPipelineFee exStOwned 0 0 1).1.pathfinder.dist 0 1 ≤
      mget ⊤ (computeAllPaths exStOwned.nodes exStOwned.edges).dist 0 1 := by
  constructor
  · have h2 : (buildPipeline exStRich 0 0).2 = MutResult.ok := by
      with_unfolding_all decide
    exact relaxation_monotone.1 exStRich 0 0 _ (by rw [← h2]) 0 1
  · have h2 : (setPipelineFee exStOwned 0 0 1).2 = MutResult.ok := by
      with_unfolding_all decide
    exact relaxation_monotone.2 exStOwned 0 0 1 _ (by rw [← h2])
      (by with_unfolding_all decide) 0 1



theorem getD_set_node (l : List Node) (idx p : Nat) (w : Node) :
    (l.set idx w).getD p dummyNode =
      if p = idx ∧ idx < l.length then w else l.getD p dummyNode := by
  simp only [List.getD_eq_getD_get?, List.get?_set]
  rcases eq_or_ne idx p with rfl | hne
  · rcases Nat.lt_or_ge idx l.length with hlt | hge
    · rw [if_pos rfl]
      have hsome : l.get? idx = some (l.get ⟨idx, hlt⟩) := by
        rw [List.get?_eq_getElem?]; exact List.getElem?_eq_getElem hlt
      rw [hsome, if_pos ⟨rfl, hlt⟩]
      rfl
    · rw [if_pos rfl]
      have hnone : l.get? idx = none := by
        rw [List.get?_eq_getElem?]; exact List.getElem?_eq_none (by omega)
      rw [hnone, if_neg (by intro hc; exact absurd hc.2 (Nat.not_lt.mpr hge))]
      rfl
  · rw [if_neg hne, if_neg (by intro hc; exact hne hc.1.symm)]

theorem trackRouteUsage_nodes (rt : DetailedRoute) (b : ℚ) (st : GameState) :
    (trackRouteUsage st rt b).nodes = st.nodes := by
  unfold trackRouteUsage
  generalize rt.edges = l
  induction l generalizing st with
  | nil => rfl
  | cons e t ih =>
    rw [List.foldl_cons, ih]
    dsimp only
    split <;> rfl

theorem trackInfrastructureUsage_nodes (st : GameState) (p r d : Nat) (b : ℚ) :
    (trackInfrastructureUsage st p r d b).nodes = st.nodes := by
  unfold trackInfrastructureUsage
  cases h1 : getDetailedRoute st.pathfinder st.edges p r with
  | none =>
    simp only [h1]
    cases h2 : getDetailedRoute st.pathfinder st.edges r d with
    | none => rfl
    | some rt => simp only [h2]; exact trackRouteUsage_nodes rt b st
  | some rt =>
    simp only [h1]
    cases h2 : getDetailedRoute (trackRouteUsage st rt b).pathfinder
        (trackRouteUsage st rt b).edges r d with
    | none => simp only [h2]; exact trackRouteUsage_nodes rt b st
    | some rt2 =>
      simp only [h2]
      rw [trackRouteUsage_nodes rt2 b _, trackRouteUsage_nodes rt b st]

theorem routeAndSatisfy_overcommit :
    (((routeAndSatisfyDemand exStTwo).nodes.getD 1 dummyNode).buildings.refinery.getD
        dummyRefinery).barrels_processed = 200 ∧
    ((exStTwo.nodes.getD 1 dummyNode).buildings.refinery.getD dummyRefinery).capacity = 100 ∧
    ¬ ((200 : ℚ) ≤ 100) := by
  with_unfolding_all decide

/-- Claim C1 (amended): when a consumption node is served by a player supply
route, the served volume is the minimum of the node current demand, the
production node RATED extraction capacity and the processing node RATED
refinery capacity (not the remaining capacities), and exactly that volume is
added to the refinery barrels_processed counter; since the capacities are
never decremented within the turn, the per-turn total over several
consumption nodes can exceed the rated capacity, as
routeAndSatisfy_overcommit shows. -/
theorem serveDemandNode_clip (st : GameState) (idx production refinery demand : Nat)
    (c : Money)
    (hd : (st.nodes.getD idx dummyNode).current_demand ≠ 0)
    (hroute : findCheapestSupply st.pathfinder (st.nodes.getD idx dummyNode).id
        st.global_oil_price st.settings.TERMINAL_FEE st.settings st.nodes =
      SupplyRoute.player_supply production refinery demand c)
    (href : refinery < st.nodes.length)
    (hbar : 0 < min (min (st.nodes.getD idx dummyNode).current_demand
        (st.nodes.getD production dummyNode).production_capacity)
      (((st.nodes.getD refinery dummyNode).buildings.refinery.getD dummyRefinery).capacity)) :
    (((serveDemandNode st idx).nodes.getD refinery dummyNode).buildings.refinery.getD
        dummyRefinery).barrels_processed =
      ((st.nodes.getD refinery dummyNode).buildings.refinery.getD
        dummyRefinery).barrels_processed +
      min (min (st.nodes.getD idx dummyNode).current_demand
          (st.nodes.getD production dummyNode).production_capacity)
        (((st.nodes.getD refinery dummyNode).buildings.refinery.getD dummyRefinery).capacity) ∧
    min (min (st.nodes.getD idx dummyNode).current_demand
        (st.nodes.getD production dummyNode).production_capacity)
      (((st.nodes.getD refinery dummyNode).buildings.refinery.getD dummyRefinery).capacity) ≤
      (st.nodes.getD idx dummyNode).current_demand ∧
    min (min (st.nodes.getD idx dummyNode).current_demand
        (st.nodes.getD production dummyNode).production_capacity)
      (((st.nodes.getD refinery dummyNode).buildings.refinery.getD dummyRefinery).capacity) ≤
      (st.nodes.getD production dummyNode).production_capacity ∧
    min (min (st.nodes.getD idx dummyNode).current_demand
        (st.nodes.getD production dummyNode).production_capacity)
      (((st.nodes.getD refinery dummyNode).buildings.refinery.getD dummyRefinery).capacity) ≤
      ((st.nodes.getD refinery dummyNode).buildings.refinery.getD dummyRefinery).capacity := by
  refine ⟨?_, le_trans (min_le_left _ _) (min_le_left _ _),
    le_trans (min_le_left _ _) (min_le_right _ _), min_le_right _ _⟩
  have hcap : ((st.nodes.set idx
        { st.nodes.getD idx dummyNode with
          supply_source := some (SupplyRoute.player_supply production refinery demand c) }).getD
        production dummyNode).production_capacity =
      (st.nodes.getD production dummyNode).production_capacity := by
    rw [getD_set_node]
    split_ifs with h
    · rw [h.1]
    · rfl
  have hbld : ((st.nodes.set idx
        { st.nodes.getD idx dummyNode with
          supply_source := some (SupplyRoute.player_supply production refinery demand c) }).getD
        refinery dummyNode).buildings =
      (st.nodes.getD refinery dummyNode).buildings := by
    rw [getD_set_node]
    split_ifs with h
    · rw [h.1]
    · rfl
  unfold serveDemandNode
  simp only []
  rw [if_neg hd, hroute]
  simp only []
  rw [hcap, hbld, if_neg (not_le.mpr hbar)]
  simp only []
  rw [trackInfrastructureUsage_nodes]
  simp only []
  rw [getD_set_node]
  rw [if_pos ⟨rfl, by rw [List.length_set]; exact href⟩]
  simp only []
  rw [hbld]
  rfl

/-- Witness for C1: the first consumption node of the two-node example is
served 100 barrels, the computed clip, and the refinery counter increases
by exactly that amount. -/
theorem serveDemandNode_clip_witness :
    (((serveDemandNode exStTwo 0).nodes.getD 1 dummyNode).buildings.refinery.getD
        dummyRefinery).barrels_processed =
      ((exStTwo.nodes.getD 1 dummyNode).buildings.refinery.getD
        dummyRefinery).barrels_processed +
      min (min (exStTwo.nodes.getD 0 dummyNode).current_demand
          (exStTwo.nodes.getD 0 dummyNode).production_capacity)
        (((exStTwo.nodes.getD 1 dummyNode).buildings.refinery.getD dummyRefinery).capacity) ∧
    min (min (exStTwo.nodes.getD 0 dummyNode).current_demand
        (exStTwo.nodes.getD 0 dummyNode).production_capacity)
      (((exStTwo.nodes.getD 1 dummyNode).buildings.refinery.getD dummyRefinery).capacity) ≤
      (exStTwo.nodes.getD 0 dummyNode).current_demand ∧
    min (min (exStTwo.nodes.getD 0 dummyNode).current_demand
        (exStTwo.nodes.getD 0 dummyNode).production_capacity)
      (((exStTwo.nodes.getD 1 dummyNode).buildings.refinery.getD dummyRefinery).capacity) ≤
      (exStTwo.nodes.getD 0 dummyNode).production_capacity ∧
    min (min (exStTwo.nodes.getD 0 dummyNode).current_demand
        (exStTwo.nodes.getD 0 dummyNode).production_capacity)
      (((exStTwo.nodes.getD 1 dummyNode).buildings.refinery.getD dummyRefinery).capacity) ≤
      ((exStTwo.nodes.getD 1 dummyNode).buildings.refinery.getD dummyRefinery).capacity :=
  serveDemandNode_clip exStTwo 0 0 1 0 ((31 : ℚ) : Money)
    (by with_unfolding_all decide) (by with_unfolding_all decide)
    (by with_unfolding_all decide) (by with_unfolding_all decide)


end Tycoon
